import Mathlib

/-!
# Verification of the go-csvlib core (github.com/tiendc/go-csvlib)

A shallow embedding in Lean 4 of the library's data model and operations:
the typed cell codecs (`decode.go`, encode counterpart), the three-level
error model (`errors.go`), the tag parser and schema resolution
(`decode.go`, `decoder.go`), the header reconciliation and row engine of
`Decoder.Decode` (`decoder.go`) and the row engine of `Encoder.Encode`
(`encoder.go`).

Modelling conventions:
* Go machine integers are modelled as `Nat`/`Int`; overflow checks of
  `strconv.ParseInt`/`ParseUint` are written out explicitly against `2 ^ bits`.
* Go's `error` interface values are modelled by the inductive `GoErr`.
  Sentinel errors created by `errors.New` are `GoErr.sentinel name`;
  `fmt.Errorf("%w: ...", base, ...)` is `GoErr.wrap base msg` where `msg`
  keeps the dynamic part of the format arguments.  A Go runtime panic
  (never reached on the inputs the theorems quantify over) is represented
  by the distinguished value `GoErr.goPanic`.
* Struct field value types are restricted to the scalar kinds
  (string, signed/unsigned integers, bool): `ColTy`.  None of these kinds
  implements the CSV/text marshaler capabilities, so over this universe
  `getDecodeFunc`/`getEncodeFunc` coincide with their BaseType variants.
  Floating point columns are outside the model.
* CSV tokenization/writing is an injected abstraction in the library
  (`Reader`/`Writer`); it is modelled as a list of already-tokenized
  read results and an accumulated list of written records.
-/

namespace Csvlib

/-- Scalar column value types of the modelled universe (`reflect.Kind`
restricted to String / IntN / UintN / Bool). `bits` is `reflect.Type.Bits()`. -/
inductive ColTy where
  | str
  | intT (bits : Nat)
  | uintT (bits : Nat)
  | boolT
deriving DecidableEq, Repr

/-- A Go value stored in a struct field of one of the modelled kinds. -/
inductive Value where
  | vStr (s : String)
  | vInt (n : Int)
  | vUint (n : Nat)
  | vBool (b : Bool)
deriving DecidableEq, Repr

/-- The zero value a freshly allocated struct field of the given type holds.
(`reflect.MakeSlice` / `reflect.New` zero-initialize their memory.) -/
def zeroValue : ColTy → Value
  | .str => .vStr ""
  | .intT _ => .vInt 0
  | .uintT _ => .vUint 0
  | .boolT => .vBool false

/-! ## strconv: the parsing/formatting functions used by the codecs -/

/-- A decimal digit's value, `none` for a non-digit. -/
def digitToNat? (c : Char) : Option Nat :=
  if c.isDigit then some (c.toNat - 48) else none

/-- Accumulating digit loop of `strconv.ParseUint` (base 10, no underscores). -/
def digitsToNatAux : List Char → Nat → Option Nat
  | [], acc => some acc
  | c :: rest, acc =>
    match digitToNat? c with
    | none => none
    | some d => digitsToNatAux rest (acc * 10 + d)

/-- Value of a non-empty all-digit string, `none` on empty input or any
non-digit character (`strconv.ErrSyntax`). -/
def digitsToNat? : List Char → Option Nat
  | [] => none
  | cs => digitsToNatAux cs 0

/-- The two error kinds of `strconv` number parsing. -/
inductive ParseErr where
  | syntaxErr
  | rangeErr
deriving DecidableEq, Repr

/-- `strconv.ParseUint(s, 10, bits)`: digits only (no sign, base-10),
range-checked against `2 ^ bits`. -/
def goParseUint (s : String) (bits : Nat) : Except ParseErr Nat :=
  match digitsToNat? s.data with
  | none => .error .syntaxErr
  | some n => if n ≥ 2 ^ bits then .error .rangeErr else .ok n

/-- `strconv.ParseInt(s, 10, bits)`: optional sign, then `ParseUint` at
64 bits (values ≥ 2^64 saturate to `2^64 - 1` carrying a range error),
then the signed cutoff check against `2 ^ (bits - 1)`. -/
def goParseInt (s : String) (bits : Nat) : Except ParseErr Int :=
  match s.data with
  | [] => .error .syntaxErr
  | c0 :: rest =>
    let neg := c0 = '-'
    let digits := if c0 = '+' ∨ c0 = '-' then rest else c0 :: rest
    match digitsToNat? digits with
    | none => .error .syntaxErr
    | some un0 =>
      let un := min un0 (2 ^ 64 - 1)
      let cutoff := 2 ^ (bits - 1)
      if ¬neg ∧ un ≥ cutoff then .error .rangeErr
      else if neg ∧ un > cutoff then .error .rangeErr
      else .ok (if neg then -(un : Int) else (un : Int))

/-- `strconv.ParseBool`: the twelve accepted literals. -/
def goParseBool (s : String) : Option Bool :=
  if s = "1" ∨ s = "t" ∨ s = "T" ∨ s = "TRUE" ∨ s = "true" ∨ s = "True" then some true
  else if s = "0" ∨ s = "f" ∨ s = "F" ∨ s = "FALSE" ∨ s = "false" ∨ s = "False" then
    some false
  else none

/-- `strconv.FormatInt(n, 10)`. -/
def goFormatInt (n : Int) : String := toString n

/-- `strconv.FormatUint(n, 10)`. -/
def goFormatUint (n : Nat) : String := toString n

/-- `strconv.FormatBool`. -/
def goFormatBool (b : Bool) : String := if b then "true" else "false"

/-! ## Go string helpers

Lean core's `String.splitOn`/`trim` are defined by well-founded recursion
and do not evaluate inside the kernel, so the few Go string operations the
library uses are modelled structurally over the character list. -/

/-- `strings.TrimSpace` (whitespace per `Char.isWhitespace`). -/
def goTrim (s : String) : String :=
  String.mk (((s.data.dropWhile Char.isWhitespace).reverse.dropWhile
    Char.isWhitespace).reverse)

/-- Splitting loop of `strings.Split(s, ",")`. -/
def splitOnCommaAux : List Char → List Char → List String
  | [], acc => [String.mk acc.reverse]
  | c :: rest, acc =>
    if c = ',' then String.mk acc.reverse :: splitOnCommaAux rest []
    else splitOnCommaAux rest (c :: acc)

/-- `strings.Split(s, ",")`: always returns at least one part. -/
def splitOnComma (s : String) : List String := splitOnCommaAux s.data []

/-- `strings.HasPrefix`. -/
def goHasPrefix (s pre : String) : Bool := pre.data.isPrefixOf s.data

/-! ## The error model (`errors.go`)

`GoErr` models a Go `error` interface value as the library builds them:
sentinels from `errors.New`, `fmt.Errorf("%w: ...")` wrappers, `*CellError`,
`*RowErrors`, and the document `*Errors` value when it is returned as an
error. The `fields` parameter map of `CellError` is only read by the
renderers and is not modelled. -/
inductive GoErr where
  | sentinel (name : String)
  | wrap (base : GoErr) (msg : String)
  | cellError (inner : GoErr) (column : Int) (header : String) (value : String)
      (localizationKey : String)
  | rowErrors (errs : List GoErr) (row : Int) (line : Int)
  | errorsDoc (errs : List GoErr) (totalRow : Nat) (header : List String)
  | goPanic (msg : String)

def ErrTypeInvalid : GoErr := .sentinel "ErrTypeInvalid"
def ErrTypeUnsupported : GoErr := .sentinel "ErrTypeUnsupported"
def ErrTypeUnmatched : GoErr := .sentinel "ErrTypeUnmatched"
def ErrValueNil : GoErr := .sentinel "ErrValueNil"
def ErrAlreadyFailed : GoErr := .sentinel "ErrAlreadyFailed"
def ErrFinished : GoErr := .sentinel "ErrFinished"
def ErrUnexpected : GoErr := .sentinel "ErrUnexpected"
def ErrTagOptionInvalid : GoErr := .sentinel "ErrTagOptionInvalid"
def ErrConfigOptionInvalid : GoErr := .sentinel "ErrConfigOptionInvalid"
def ErrLocalization : GoErr := .sentinel "ErrLocalization"
def ErrHeaderColumnInvalid : GoErr := .sentinel "ErrHeaderColumnInvalid"
def ErrHeaderColumnUnrecognized : GoErr := .sentinel "ErrHeaderColumnUnrecognized"
def ErrHeaderColumnRequired : GoErr := .sentinel "ErrHeaderColumnRequired"
def ErrHeaderColumnDuplicated : GoErr := .sentinel "ErrHeaderColumnDuplicated"
def ErrHeaderColumnOrderInvalid : GoErr := .sentinel "ErrHeaderColumnOrderInvalid"
def ErrHeaderDynamicTypeInvalid : GoErr := .sentinel "ErrHeaderDynamicTypeInvalid"
def ErrHeaderDynamicNotAllowNoHeaderMode : GoErr :=
  .sentinel "ErrHeaderDynamicNotAllowNoHeaderMode"
def ErrHeaderDynamicRequireColumnOrder : GoErr :=
  .sentinel "ErrHeaderDynamicRequireColumnOrder"
def ErrHeaderDynamicNotAllowUnrecognizedColumns : GoErr :=
  .sentinel "ErrHeaderDynamicNotAllowUnrecognizedColumns"
def ErrHeaderDynamicNotAllowLocalizedHeader : GoErr :=
  .sentinel "ErrHeaderDynamicNotAllowLocalizedHeader"
def ErrDecodeValueType : GoErr := .sentinel "ErrDecodeValueType"
def ErrDecodeRowFieldCount : GoErr := .sentinel "ErrDecodeRowFieldCount"
def ErrDecodeQuoteInvalid : GoErr := .sentinel "ErrDecodeQuoteInvalid"
def ErrEncodeValueType : GoErr := .sentinel "ErrEncodeValueType"
/-- `io.EOF`, returned by the injected reader at end of input. -/
def ErrEOF : GoErr := .sentinel "io.EOF"

/-- Type test `err.(*RowErrors)` of Go. -/
def isRowErrors : GoErr → Bool
  | .rowErrors .. => true
  | _ => false

/-- Type test `err.(*CellError)` of Go. -/
def isCellError : GoErr → Bool
  | .cellError .. => true
  | _ => false

/-- `NewCellError(err, column, header)`. -/
def NewCellError (err : GoErr) (column : Int) (header : String) : GoErr :=
  .cellError err column header "" ""

/-- `RowErrors.TotalError`: number of member errors of one row. -/
def RowErrors.TotalError (errs : List GoErr) : Nat := errs.length

/-- `RowErrors.TotalCellError`: number of `*CellError` members of one row. -/
def RowErrors.TotalCellError (errs : List GoErr) : Nat := errs.countP isCellError

/-- The document-level `Errors` value (`errs` mixes `*RowErrors` and common
errors; `totalRow` and `header` are filled in by `prepareDecode`). -/
structure Errors where
  errs : List GoErr := []
  totalRow : Nat := 0
  header : List String := []

/-- `Errors.HasError`. -/
def Errors.HasError (e : Errors) : Bool := e.errs.length > 0

/-- `Errors.Add`. -/
def Errors.Add (e : Errors) (new : List GoErr) : Errors :=
  { e with errs := e.errs ++ new }

/-- `Errors.TotalRowError`: counts the `*RowErrors` members. -/
def Errors.TotalRowError (e : Errors) : Nat := e.errs.countP isRowErrors

/-- `Errors.TotalCellError`: sums `TotalCellError` over the `*RowErrors`
members. -/
def Errors.TotalCellError (e : Errors) : Nat :=
  (e.errs.map (fun er =>
    match er with
    | .rowErrors errs _ _ => RowErrors.TotalCellError errs
    | _ => 0)).sum

/-- `Errors.TotalError`: each `*RowErrors` member contributes its own
`TotalError`, every other member contributes 1. -/
def Errors.TotalError (e : Errors) : Nat :=
  (e.errs.map (fun er =>
    match er with
    | .rowErrors errs _ _ => RowErrors.TotalError errs
    | _ => 1)).sum

/-! ## Cell decode functions (`decode.go`) -/

/-- `decodeStr`. -/
def decodeStr (s : String) : Except GoErr Value := .ok (.vStr s)

/-- `decodeBool`. -/
def decodeBool (s : String) : Except GoErr Value :=
  match goParseBool s with
  | none => .error (.wrap ErrDecodeValueType s)
  | some b => .ok (.vBool b)

/-- `decodeInt` (the function returned by `decodeIntFunc(bits)`). -/
def decodeInt (s : String) (bits : Nat) : Except GoErr Value :=
  match goParseInt s bits with
  | .error _ => .error (.wrap ErrDecodeValueType s)
  | .ok n => .ok (.vInt n)

/-- `decodeUint` (the function returned by `decodeUintFunc(bits)`). -/
def decodeUint (s : String) (bits : Nat) : Except GoErr Value :=
  match goParseUint s bits with
  | .error _ => .error (.wrap ErrDecodeValueType s)
  | .ok n => .ok (.vUint n)

/-- `getDecodeFuncBaseType` over the modelled scalar universe (the
pointer/interface branches and the `ErrTypeUnsupported` default are outside
this universe). -/
def getDecodeFuncBaseType (ty : ColTy) : String → Except GoErr Value :=
  match ty with
  | .str => decodeStr
  | .intT bits => fun s => decodeInt s bits
  | .uintT bits => fun s => decodeUint s bits
  | .boolT => decodeBool

/-- `getDecodeFunc`: none of the scalar kinds implements `CSVUnmarshaler`
or `encoding.TextUnmarshaler`, so dispatch falls through to the base-type
function. -/
def getDecodeFunc (ty : ColTy) : String → Except GoErr Value :=
  getDecodeFuncBaseType ty

/-! ## Cell encode functions (`encode.go`) -/

/-- `encodeStr`. -/
def encodeStr (v : Value) (_omitempty : Bool) : Except GoErr String :=
  match v with
  | .vStr s => .ok s
  | _ => .error (.goPanic "reflect: String on non-string Value")

/-- `encodeBool`. -/
def encodeBool (v : Value) (omitempty : Bool) : Except GoErr String :=
  match v with
  | .vBool b => if b = false ∧ omitempty then .ok "" else .ok (goFormatBool b)
  | _ => .error (.goPanic "reflect: Bool on non-bool Value")

/-- `encodeInt`. -/
def encodeInt (v : Value) (omitempty : Bool) : Except GoErr String :=
  match v with
  | .vInt n => if n = 0 ∧ omitempty then .ok "" else .ok (goFormatInt n)
  | _ => .error (.goPanic "reflect: Int on non-int Value")

/-- `encodeUint`. -/
def encodeUint (v : Value) (omitempty : Bool) : Except GoErr String :=
  match v with
  | .vUint n => if n = 0 ∧ omitempty then .ok "" else .ok (goFormatUint n)
  | _ => .error (.goPanic "reflect: Uint on non-uint Value")

/-- `getEncodeFuncBaseType` over the modelled scalar universe. -/
def getEncodeFuncBaseType (ty : ColTy) : Value → Bool → Except GoErr String :=
  match ty with
  | .str => encodeStr
  | .intT _ => encodeInt
  | .uintT _ => encodeUint
  | .boolT => encodeBool

/-- `getEncodeFunc`: scalar kinds implement no marshaler capability, so
dispatch falls through to the base-type function. -/
def getEncodeFunc (ty : ColTy) : Value → Bool → Except GoErr String :=
  getEncodeFuncBaseType ty

/-! # Theorems -/

/-- C2: for every error tree, a `RowErrors`' `TotalError` equals its
`TotalCellError` plus the number of its non-`CellError` members; the
document `Errors`' `TotalError` equals the sum of its `RowErrors` members'
`TotalError` plus one per common (non-`RowErrors`) member; and
`TotalRowError` counts exactly the `RowErrors` members. -/
theorem c2_error_counting_invariants :
    (∀ errs : List GoErr,
      RowErrors.TotalError errs
        = RowErrors.TotalCellError errs + errs.countP (fun er => ! isCellError er)) ∧
    (∀ e : Errors,
      Errors.TotalError e
        = ((e.errs.filter isRowErrors).map (fun er =>
              match er with
              | .rowErrors errs _ _ => RowErrors.TotalError errs
              | _ => 0)).sum
          + e.errs.countP (fun er => ! isRowErrors er)) ∧
    (∀ e : Errors, Errors.TotalRowError e = e.errs.countP isRowErrors) := by
  refine ⟨?_, ?_, ?_⟩
  · intro errs
    unfold RowErrors.TotalError RowErrors.TotalCellError
    induction errs with
    | nil => rfl
    | cons a rest ih =>
      simp only [List.countP_cons, List.length_cons, ih]
      cases h : isCellError a <;> simp <;> omega
  · intro e
    unfold Errors.TotalError
    induction e.errs with
    | nil => rfl
    | cons a rest ih =>
      simp only [List.map_cons, List.sum_cons, List.filter_cons, List.countP_cons, ih]
      cases a <;> simp [isRowErrors, RowErrors.TotalError] <;> omega
  · intro e
    rfl

/-- The plain reading of a decimal numeral (optional sign, digits), without
any range restriction. This is the spec-side notion of "the value the cell
text denotes", used to state that the decoder accepts exactly the
representable values. -/
def decNumeral? (s : String) : Option Int :=
  match s.data with
  | [] => none
  | c0 :: rest =>
    let neg := c0 = '-'
    let digits := if c0 = '+' ∨ c0 = '-' then rest else c0 :: rest
    match digitsToNat? digits with
    | none => none
    | some n => some (if neg then -(n : Int) else (n : Int))

/-- `strconv.ParseInt` succeeds on a well-formed numeral exactly when its
value fits the signed range of the declared bit width, and reports a range
error otherwise. -/
theorem goParseInt_exact (s : String) (bits : Nat) (n : Int)
    (h1 : 1 ≤ bits) (h64 : bits ≤ 64) (hsn : decNumeral? s = some n) :
    (goParseInt s bits = .ok n ↔ -(2 ^ (bits - 1) : Int) ≤ n ∧ n < 2 ^ (bits - 1))
    ∧ (goParseInt s bits = .error .rangeErr ↔
        ¬(-(2 ^ (bits - 1) : Int) ≤ n ∧ n < 2 ^ (bits - 1))) := by
  have hcut : (2 : Nat) ^ (bits - 1) ≤ 2 ^ 63 := Nat.pow_le_pow_right (by norm_num) (by omega)
  have hc63 : (2 : Nat) ^ 63 ≤ 2 ^ 64 - 1 := by norm_num
  have hcut1 : (1 : Nat) ≤ 2 ^ (bits - 1) := Nat.one_le_two_pow
  have hcast : ((2 ^ (bits - 1) : Nat) : Int) = (2 : Int) ^ (bits - 1) := by push_cast; ring
  unfold goParseInt
  unfold decNumeral? at hsn
  cases hs : s.data with
  | nil => rw [hs] at hsn; simp at hsn
  | cons c0 rest =>
    rw [hs] at hsn
    dsimp only at hsn ⊢
    cases hd : digitsToNat? (if c0 = '+' ∨ c0 = '-' then rest else c0 :: rest) with
    | none => rw [hd] at hsn; simp at hsn
    | some un0 =>
      rw [hd] at hsn
      by_cases hn : c0 = '-'
      · -- negative numeral: n = -un0
        subst hn
        simp only [eq_self_iff_true, if_true, not_true_eq_false, false_and, if_false,
          true_and, Option.some.injEq] at hsn ⊢
        subst hsn
        by_cases hle : un0 ≤ 2 ^ (bits - 1)
        · have hmin : min un0 (2 ^ 64 - 1) = un0 := by omega
          have hnr : ¬ min un0 (2 ^ 64 - 1) > 2 ^ (bits - 1) := by omega
          rw [if_neg hnr, hmin]
          have hinr : -(2 ^ (bits - 1) : Int) ≤ -(un0 : Int) ∧ -(un0 : Int) < 2 ^ (bits - 1) := by
            constructor
            · rw [← hcast]; omega
            · have : (0 : Int) < (2 : Int) ^ (bits - 1) := by positivity
              omega
          exact ⟨⟨fun _ => hinr, fun _ => rfl⟩,
            ⟨fun h => absurd h (by simp), fun h => absurd hinr h⟩⟩
        · have hr : min un0 (2 ^ 64 - 1) > 2 ^ (bits - 1) := by omega
          rw [if_pos hr]
          have hout : ¬ (-(2 ^ (bits - 1) : Int) ≤ -(un0 : Int)
              ∧ -(un0 : Int) < 2 ^ (bits - 1)) := by
            intro ⟨hlo, _⟩
            rw [← hcast] at hlo
            omega
          exact ⟨⟨fun h => absurd h (by simp), fun h => absurd h hout⟩,
            ⟨fun _ => hout, fun _ => rfl⟩⟩
      · -- non-negative numeral: n = un0
        simp only [hn, not_false_eq_true, true_and, false_and, if_false, ite_false,
          Option.some.injEq] at hsn ⊢
        subst hsn
        by_cases hlt : un0 < 2 ^ (bits - 1)
        · have hmin : min un0 (2 ^ 64 - 1) = un0 := by omega
          have hnr : ¬ min un0 (2 ^ 64 - 1) ≥ 2 ^ (bits - 1) := by omega
          rw [if_neg hnr, hmin]
          have hinr : -(2 ^ (bits - 1) : Int) ≤ (un0 : Int) ∧ (un0 : Int) < 2 ^ (bits - 1) := by
            constructor
            · have : (0 : Int) < (2 : Int) ^ (bits - 1) := by positivity
              omega
            · rw [← hcast]; omega
          exact ⟨⟨fun _ => hinr, fun _ => rfl⟩,
            ⟨fun h => absurd h (by simp), fun h => absurd hinr h⟩⟩
        · have hr : min un0 (2 ^ 64 - 1) ≥ 2 ^ (bits - 1) := by omega
          rw [if_pos hr]
          have hout : ¬ (-(2 ^ (bits - 1) : Int) ≤ (un0 : Int)
              ∧ (un0 : Int) < 2 ^ (bits - 1)) := by
            intro ⟨_, hhi⟩
            rw [← hcast] at hhi
            omega
          exact ⟨⟨fun h => absurd h (by simp), fun h => absurd h hout⟩,
            ⟨fun _ => hout, fun _ => rfl⟩⟩

/-- `strconv.ParseInt` rejects every string that is not a well-formed
decimal numeral, with a syntax error. -/
theorem goParseInt_syntaxErr (s : String) (bits : Nat) (hsn : decNumeral? s = none) :
    goParseInt s bits = .error .syntaxErr := by
  unfold goParseInt
  unfold decNumeral? at hsn
  cases hs : s.data with
  | nil => rfl
  | cons c0 rest =>
    rw [hs] at hsn
    dsimp only at hsn ⊢
    cases hd : digitsToNat? (if c0 = '+' ∨ c0 = '-' then rest else c0 :: rest) with
    | none => rfl
    | some un0 => rw [hd] at hsn; simp at hsn

/-- C5: for an 8-bit signed integer column the decode function rejects
`"1000"` with a decode-value error and accepts `"100"` storing 100; in
general `decodeInt` accepts a well-formed numeral exactly when its value is
representable in the declared bit width (and rejects everything else). -/
theorem c5_int_decode_enforces_bit_width :
    decodeInt "1000" 8 = .error (.wrap ErrDecodeValueType "1000")
    ∧ decodeInt "100" 8 = .ok (.vInt 100)
    ∧ (∀ (s : String) (bits : Nat) (n : Int), 1 ≤ bits → bits ≤ 64 →
        decNumeral? s = some n →
        (decodeInt s bits = .ok (.vInt n)
          ↔ -(2 ^ (bits - 1) : Int) ≤ n ∧ n < 2 ^ (bits - 1))
        ∧ (¬(-(2 ^ (bits - 1) : Int) ≤ n ∧ n < 2 ^ (bits - 1))
            → decodeInt s bits = .error (.wrap ErrDecodeValueType s)))
    ∧ (∀ (s : String) (bits : Nat), decNumeral? s = none →
        decodeInt s bits = .error (.wrap ErrDecodeValueType s)) := by
  refine ⟨rfl, rfl, ?_, ?_⟩
  · intro s bits n h1 h64 hsn
    obtain ⟨hok, hrange⟩ := goParseInt_exact s bits n h1 h64 hsn
    constructor
    · constructor
      · intro hdec
        apply hok.mp
        unfold decodeInt at hdec
        cases hg : goParseInt s bits with
        | error e => rw [hg] at hdec; exact absurd hdec (by simp)
        | ok m =>
          rw [hg] at hdec
          simp only [Except.ok.injEq, Value.vInt.injEq] at hdec
          rw [hdec]
      · intro hin
        unfold decodeInt
        rw [hok.mpr hin]
    · intro hout
      unfold decodeInt
      rw [hrange.mpr hout]
  · intro s bits hsn
    unfold decodeInt
    rw [goParseInt_syntaxErr s bits hsn]

/-- Witness for C5: instantiates the general statements at bit width 8 with
the numeral `"42"` (in range) and the non-numeral `"x"`. -/
theorem c5_witness :
    (decodeInt "42" 8 = .ok (.vInt 42)
      ↔ -(2 ^ (8 - 1) : Int) ≤ (42 : Int) ∧ (42 : Int) < 2 ^ (8 - 1))
    ∧ decodeInt "x" 8 = .error (.wrap ErrDecodeValueType "x") := by
  constructor
  · exact (c5_int_decode_enforces_bit_width.2.2.1 "42" 8 42 (by omega) (by omega) rfl).1
  · exact c5_int_decode_enforces_bit_width.2.2.2 "x" 8 rfl

/-! ## Tag parsing (`parseTag` in `decode.go`) -/

/-- A struct field of a record type in the modelled universe: its name, the
raw value of its `csv` tag (`none` when `Tag.Lookup` fails), its
exportedness, and its (scalar) value type. -/
structure StructField where
  name : String
  tag : Option String := none
  exported : Bool := true
  ty : ColTy := .str
deriving DecidableEq, Repr

/-- `tagDetail` (the `prefix` field is called `prefixVal` here). -/
structure TagDetail where
  name : String := ""
  prefixVal : String := ""
  ignored : Bool := false
  empty : Bool := false
  omitEmpty : Bool := false
  optional : Bool := false
  inline : Bool := false
deriving DecidableEq, Repr

/-- One iteration of the option loop of `parseTag` over `tags[1:]`. -/
def applyTagOption (tag : TagDetail) (tagOpt : String) : TagDetail :=
  if tagOpt = "optional" then { tag with optional := true }
  else if tagOpt = "omitempty" then { tag with omitEmpty := true }
  else if tagOpt = "inline" then { tag with inline := true }
  else if goHasPrefix tagOpt "prefix=" then
    { tag with prefixVal := String.mk (tagOpt.data.drop 7) }
  else tag

/-- The parsing part of `parseTag` (everything before the three
validations): split the tag value on commas, read the name from the first
token and the options from the rest. -/
def parseTagDetail (field : StructField) (tagValue : String) : TagDetail :=
  let tags := splitOnComma tagValue
  if tags.length = 1 ∧ tags.headD "" = "" then
    { name := field.name, empty := true }
  else
    let t0 : TagDetail :=
      match tags.headD "" with
      | "-" => { ignored := true }
      | "" => { name := field.name }
      | nm => { name := nm }
    (tags.drop 1).foldl applyTagOption t0

/-- `parseTag`: `.ok none` when the field has no tag, otherwise the parsed
detail subject to the three validations (unexported field with non-ignore
tag, `prefix` outside an inline column, `optional` combined with
`inline`). -/
def parseTag (field : StructField) : Except GoErr (Option TagDetail) :=
  match field.tag with
  | none => .ok none
  | some tagValue =>
    let tag := parseTagDetail field tagValue
    if ¬tag.ignored ∧ ¬field.exported then
      .error (.wrap ErrTagOptionInvalid ("struct field " ++ field.name ++ " unexported"))
    else if tag.prefixVal ≠ "" ∧ ¬tag.inline then
      .error (.wrap ErrTagOptionInvalid "prefix tag is only accepted for inline column")
    else if tag.inline ∧ tag.optional then
      .error (.wrap ErrTagOptionInvalid "inline column must not be optional")
    else .ok (some tag)

/-! ## Decoder configuration and column metadata (`decoder.go`) -/

/-- `DecodeColumnConfig`. -/
structure DecodeColumnConfig where
  trimSpace : Bool := false
  stopOnError : Bool := false
  decodeFunc : Option (String → Except GoErr Value) := none
  preprocessorFuncs : List (String → String) := []
  validatorFuncs : List (Value → Option GoErr) := []
  onCellErrorFunc : Option (GoErr → String) := none

/-- `DecodeConfig`. The localization function is modelled as a total
function plus a presence flag (`LocalizationFunc == nil` in Go).
`columnConfigMap` is an association list standing for the Go map.
Defaults follow `defaultDecodeConfig`. `DetectRowLine` is not modelled
(line numbers are carried by the injected reader); rows then get
`line = -1`. -/
structure DecodeConfig where
  noHeaderMode : Bool := false
  stopOnError : Bool := true
  trimSpace : Bool := false
  requireColumnOrder : Bool := true
  parseLocalizedHeader : Bool := false
  allowUnrecognizedColumns : Bool := false
  treatIncorrectStructureAsError : Bool := true
  hasLocalizationFunc : Bool := false
  localizationFunc : String → Except GoErr String := fun k => .ok k
  columnConfigMap : List (String × DecodeColumnConfig) := []

/-- `defaultDecodeConfig`. -/
def defaultDecodeConfig : DecodeConfig := {}

/-- Lookup in the Go map `columnConfigMap` (keys are unique). -/
def DecodeConfig.columnConfig (cfg : DecodeConfig) (key : String) :
    Option DecodeColumnConfig :=
  (cfg.columnConfigMap.find? (fun kv => kv.1 = key)).map Prod.snd

/-- `decodeColumnMeta`. `fieldIndex` is `targetField.Index[0]`, `ty` is the
field's value type, `isDynamicInline` stands for
`inlineColumnMeta != nil && inlineType == inlineColumnStructDynamic`
(always false over the scalar universe, kept because
`validateHeaderUniqueness` reads it). -/
structure DecodeColumnMeta where
  column : Int := 0
  headerKey : String := ""
  headerText : String := ""
  parentKey : String := ""
  prefixVal : String := ""
  optional : Bool := false
  unrecognized : Bool := false
  omitempty : Bool := false
  trimSpace : Bool := false
  stopOnError : Bool := false
  fieldIndex : Nat := 0
  ty : ColTy := .str
  isDynamicInline : Bool := false
  decodeFunc : Option (String → Except GoErr Value) := none
  preprocessorFuncs : List (String → String) := []
  validatorFuncs : List (Value → Option GoErr) := []
  onCellErrorFunc : Option (GoErr → String) := none

/-- `decodeColumnMeta.copyConfig`. -/
def DecodeColumnMeta.copyConfig (m : DecodeColumnMeta)
    (columnCfg : Option DecodeColumnConfig) : DecodeColumnMeta :=
  match columnCfg with
  | none => m
  | some c =>
    { m with
      trimSpace := c.trimSpace
      stopOnError := c.stopOnError
      decodeFunc := c.decodeFunc
      validatorFuncs := c.validatorFuncs
      preprocessorFuncs := c.preprocessorFuncs
      onCellErrorFunc := c.onCellErrorFunc }

/-- `decodeColumnMeta.localizeHeader` (the `multierror.Append` of the inner
cause is collapsed into the wrap message). -/
def DecodeColumnMeta.localizeHeader (m : DecodeColumnMeta) (cfg : DecodeConfig) :
    Except GoErr DecodeColumnMeta :=
  if cfg.parseLocalizedHeader then
    match cfg.localizationFunc m.headerKey with
    | .error _ => .error (.wrap ErrLocalization m.headerKey)
    | .ok headerText => .ok { m with headerText := headerText }
  else .ok m

/-- The loop body of `Decoder.validateHeaderUniqueness`, with the set of
already-seen (trimmed) header keys made explicit. -/
def validateHeaderUniquenessFrom (seen : List String) :
    List DecodeColumnMeta → Except GoErr Unit
  | [] => .ok ()
  | colMeta :: rest =>
    let h := colMeta.headerKey
    let hh := goTrim h
    if h ≠ hh ∨ hh.length = 0 then .error (.wrap ErrHeaderColumnInvalid h)
    else if hh ∈ seen ∧ ¬colMeta.isDynamicInline then
      .error (.wrap ErrHeaderColumnDuplicated h)
    else validateHeaderUniquenessFrom (hh :: seen) rest

/-- `Decoder.validateHeaderUniqueness`. -/
def Decoder.validateHeaderUniqueness (colsMeta : List DecodeColumnMeta) :
    Except GoErr Unit :=
  validateHeaderUniquenessFrom [] colsMeta

/-- A header key the uniqueness check considers well-formed: equal to its
trimmed form and non-empty. -/
def validHeaderKey (h : String) : Prop := goTrim h = h ∧ h.length ≠ 0

instance (h : String) : Decidable (validHeaderKey h) := by
  unfold validHeaderKey; infer_instance

/-- If every key is well-formed and some key already seen reoccurs on a
non-dynamic-inline column, the uniqueness check reports a duplicate. -/
theorem validateHeaderUniquenessFrom_dup (cols : List DecodeColumnMeta)
    (seen : List String)
    (hvalid : ∀ c ∈ cols, validHeaderKey c.headerKey)
    (hdup : ∃ c ∈ cols, ¬c.isDynamicInline ∧ c.headerKey ∈ seen) :
    ∃ m, validateHeaderUniquenessFrom seen cols
      = .error (.wrap ErrHeaderColumnDuplicated m) := by
  induction cols generalizing seen with
  | nil => obtain ⟨c, hc, _⟩ := hdup; exact absurd hc (by simp)
  | cons a rest ih =>
    have hva := hvalid a (by simp)
    have htrim : goTrim a.headerKey = a.headerKey := hva.1
    unfold validateHeaderUniquenessFrom
    dsimp only
    rw [if_neg (by rw [htrim]; simp [hva.2])]
    obtain ⟨c, hc, hcdyn, hcseen⟩ := hdup
    by_cases hsplit : goTrim a.headerKey ∈ seen ∧ ¬a.isDynamicInline
    · rw [if_pos (by simpa using hsplit)]
      exact ⟨_, rfl⟩
    · rw [if_neg (by simpa using hsplit)]
      rcases List.mem_cons.mp hc with rfl | hcrest
      · exact absurd ⟨by rw [htrim]; exact hcseen, by simpa using hcdyn⟩ hsplit
      · exact ih _ (fun c hc => hvalid c (by simp [hc]))
          ⟨c, hcrest, hcdyn, by rw [htrim]; simp [hcseen]⟩

/-- With any initial seen-set: a list containing two columns with the same
well-formed key, the second of them not dynamic-inline, fails the
uniqueness check with a duplicate error. -/
theorem validateHeaderUniquenessFrom_dup_pair
    (pre mid post : List DecodeColumnMeta) (a b : DecodeColumnMeta)
    (seen : List String)
    (hvalid : ∀ c ∈ pre ++ a :: mid ++ b :: post, validHeaderKey c.headerKey)
    (hab : a.headerKey = b.headerKey) (hbdyn : ¬b.isDynamicInline) :
    ∃ m, validateHeaderUniquenessFrom seen (pre ++ a :: mid ++ b :: post)
      = .error (.wrap ErrHeaderColumnDuplicated m) := by
  induction pre generalizing seen with
  | nil =>
    have hva := hvalid a (by simp)
    rw [List.nil_append]
    simp only [validateHeaderUniquenessFrom]
    rw [if_neg (by rw [hva.1]; simp [hva.2])]
    by_cases hsplit : goTrim a.headerKey ∈ seen ∧ ¬a.isDynamicInline
    · rw [if_pos (by simpa using hsplit)]
      exact ⟨_, rfl⟩
    · rw [if_neg (by simpa using hsplit)]
      apply validateHeaderUniquenessFrom_dup
      · intro c hc
        exact hvalid c (by simpa using Or.inr hc)
      · exact ⟨b, by simp, hbdyn, by rw [hva.1, hab]; simp⟩
  | cons p pre' ih =>
    have hvp := hvalid p (by simp)
    rw [List.cons_append]
    simp only [validateHeaderUniquenessFrom]
    rw [if_neg (by rw [hvp.1]; simp [hvp.2])]
    by_cases hsplit : goTrim p.headerKey ∈ seen ∧ ¬p.isDynamicInline
    · rw [if_pos (by simpa using hsplit)]
      exact ⟨_, rfl⟩
    · rw [if_neg (by simpa using hsplit)]
      apply ih
      intro c hc
      apply hvalid c
      simp only [List.mem_cons, List.mem_append] at hc ⊢
      tauto

/-- C8: `parseTag` rejects with `ErrTagOptionInvalid` every unexported
field carrying a non-ignore tag, every tag setting a prefix on a non-inline
column, and every tag combining `optional` with `inline`;
`Decoder.validateHeaderUniqueness` rejects duplicated (well-formed) column
keys with `ErrHeaderColumnDuplicated`. -/
theorem c8_tag_and_uniqueness_validation :
    (∀ (field : StructField) (tv : String), field.tag = some tv →
      ¬(parseTagDetail field tv).ignored → ¬field.exported →
      ∃ m, parseTag field = .error (.wrap ErrTagOptionInvalid m))
    ∧ (∀ (field : StructField) (tv : String), field.tag = some tv →
        (parseTagDetail field tv).prefixVal ≠ "" →
        ¬(parseTagDetail field tv).inline →
        ∃ m, parseTag field = .error (.wrap ErrTagOptionInvalid m))
    ∧ (∀ (field : StructField) (tv : String), field.tag = some tv →
        (parseTagDetail field tv).inline → (parseTagDetail field tv).optional →
        ∃ m, parseTag field = .error (.wrap ErrTagOptionInvalid m))
    ∧ (∀ (pre mid post : List DecodeColumnMeta) (a b : DecodeColumnMeta),
        (∀ c ∈ pre ++ a :: mid ++ b :: post, validHeaderKey c.headerKey) →
        a.headerKey = b.headerKey → ¬b.isDynamicInline →
        ∃ m, Decoder.validateHeaderUniqueness (pre ++ a :: mid ++ b :: post)
          = .error (.wrap ErrHeaderColumnDuplicated m)) := by
  refine ⟨?_, ?_, ?_, ?_⟩
  · intro field tv htag hni hexp
    unfold parseTag
    rw [htag]
    dsimp only
    rw [if_pos (show ¬(parseTagDetail field tv).ignored = true ∧ ¬field.exported = true from
      ⟨by simpa using hni, by simpa using hexp⟩)]
    exact ⟨_, rfl⟩
  · intro field tv htag hpre hinl
    unfold parseTag
    rw [htag]
    dsimp only
    by_cases h1 : ¬(parseTagDetail field tv).ignored ∧ ¬field.exported
    · rw [if_pos h1]; exact ⟨_, rfl⟩
    · rw [if_neg h1, if_pos ⟨hpre, hinl⟩]; exact ⟨_, rfl⟩
  · intro field tv htag hinl hopt
    unfold parseTag
    rw [htag]
    dsimp only
    by_cases h1 : ¬(parseTagDetail field tv).ignored ∧ ¬field.exported
    · rw [if_pos h1]; exact ⟨_, rfl⟩
    · rw [if_neg h1]
      by_cases h2 : (parseTagDetail field tv).prefixVal ≠ "" ∧ ¬(parseTagDetail field tv).inline
      · rw [if_pos h2]; exact ⟨_, rfl⟩
      · rw [if_neg h2, if_pos ⟨hinl, hopt⟩]; exact ⟨_, rfl⟩
  · intro pre mid post a b hvalid hab hbdyn
    unfold Decoder.validateHeaderUniqueness
    exact validateHeaderUniquenessFrom_dup_pair pre mid post a b [] hvalid hab hbdyn


/-- Witness for C8: concrete instances of all four rejections — an
unexported tagged field, a `prefix` tag without `inline`, an
`inline,optional` tag, and a duplicated column key. -/
theorem c8_witness :
    (∃ m, parseTag { name := "Col1", tag := some "col1", exported := false }
      = .error (.wrap ErrTagOptionInvalid m))
    ∧ (∃ m, parseTag { name := "Col2", tag := some "col2,prefix=p_" }
      = .error (.wrap ErrTagOptionInvalid m))
    ∧ (∃ m, parseTag { name := "Col3", tag := some "col3,inline,optional" }
      = .error (.wrap ErrTagOptionInvalid m))
    ∧ (∃ m, Decoder.validateHeaderUniqueness
        [{ headerKey := "a" }, { headerKey := "a" }]
      = .error (.wrap ErrHeaderColumnDuplicated m)) := by
  refine ⟨?_, ?_, ?_, ?_⟩
  · exact c8_tag_and_uniqueness_validation.1
      { name := "Col1", tag := some "col1", exported := false } "col1"
      rfl (by decide) (by decide)
  · exact c8_tag_and_uniqueness_validation.2.1
      { name := "Col2", tag := some "col2,prefix=p_" } "col2,prefix=p_"
      rfl (by decide) (by decide)
  · exact c8_tag_and_uniqueness_validation.2.2.1
      { name := "Col3", tag := some "col3,inline,optional" } "col3,inline,optional"
      rfl (by decide) (by decide)
  · exact c8_tag_and_uniqueness_validation.2.2.2 [] [] []
      { headerKey := "a" } { headerKey := "a" }
      (by intro c hc; fin_cases hc <;> decide)
      rfl (by decide)

/-- `Decoder.validateConfigOnInlineColumns`: the restrictions applied at
setup when the schema contains inline columns (`hasDynamicInlineColumns`
is the decoder's flag; the fixed-inline flag only gates the call site and
is not read by the body). -/
def Decoder.validateConfigOnInlineColumns (cfg : DecodeConfig)
    (hasDynamicInlineColumns : Bool) (fileHeader : List String) :
    Except GoErr Unit :=
  if cfg.noHeaderMode ∨ fileHeader.length = 0 then
    .error ErrHeaderDynamicNotAllowNoHeaderMode
  else if hasDynamicInlineColumns ∧ ¬cfg.requireColumnOrder then
    .error ErrHeaderDynamicRequireColumnOrder
  else if hasDynamicInlineColumns ∧ cfg.allowUnrecognizedColumns then
    .error ErrHeaderDynamicNotAllowUnrecognizedColumns
  else if hasDynamicInlineColumns ∧ cfg.parseLocalizedHeader then
    .error ErrHeaderDynamicNotAllowLocalizedHeader
  else .ok ()

/-- C4: with a dynamic inline group present, the setup check passes exactly
when a live header is present (no headerless mode), column order is
required, unrecognized columns are disallowed and localized-header parsing
is off — and each violation yields its corresponding configuration
error. -/
theorem c4_dynamic_inline_config_restrictions :
    ∀ (cfg : DecodeConfig) (fileHeader : List String),
      (Decoder.validateConfigOnInlineColumns cfg true fileHeader = .ok ()
        ↔ ¬cfg.noHeaderMode ∧ fileHeader ≠ [] ∧ cfg.requireColumnOrder
            ∧ ¬cfg.allowUnrecognizedColumns ∧ ¬cfg.parseLocalizedHeader)
      ∧ (cfg.noHeaderMode ∨ fileHeader = [] →
          Decoder.validateConfigOnInlineColumns cfg true fileHeader
            = .error ErrHeaderDynamicNotAllowNoHeaderMode)
      ∧ (¬cfg.noHeaderMode → fileHeader ≠ [] → ¬cfg.requireColumnOrder →
          Decoder.validateConfigOnInlineColumns cfg true fileHeader
            = .error ErrHeaderDynamicRequireColumnOrder)
      ∧ (¬cfg.noHeaderMode → fileHeader ≠ [] → cfg.requireColumnOrder →
          cfg.allowUnrecognizedColumns →
          Decoder.validateConfigOnInlineColumns cfg true fileHeader
            = .error ErrHeaderDynamicNotAllowUnrecognizedColumns)
      ∧ (¬cfg.noHeaderMode → fileHeader ≠ [] → cfg.requireColumnOrder →
          ¬cfg.allowUnrecognizedColumns → cfg.parseLocalizedHeader →
          Decoder.validateConfigOnInlineColumns cfg true fileHeader
            = .error ErrHeaderDynamicNotAllowLocalizedHeader) := by
  intro cfg fileHeader
  unfold Decoder.validateConfigOnInlineColumns
  refine ⟨?_, ?_, ?_, ?_, ?_⟩
  · constructor
    · intro hok
      by_cases h1 : cfg.noHeaderMode ∨ fileHeader.length = 0
      · rw [if_pos h1] at hok; exact absurd hok (by simp)
      · rw [if_neg h1] at hok
        by_cases h2 : (true : Bool) ∧ ¬cfg.requireColumnOrder
        · rw [if_pos h2] at hok; exact absurd hok (by simp)
        · rw [if_neg h2] at hok
          by_cases h3 : (true : Bool) ∧ cfg.allowUnrecognizedColumns
          · rw [if_pos h3] at hok; exact absurd hok (by simp)
          · rw [if_neg h3] at hok
            by_cases h4 : (true : Bool) ∧ cfg.parseLocalizedHeader
            · rw [if_pos h4] at hok; exact absurd hok (by simp)
            · refine ⟨?_, ?_, ?_, ?_, ?_⟩
              · intro hm; exact h1 (Or.inl hm)
              · intro hm; exact h1 (Or.inr (by simp [hm]))
              · by_contra hro; exact h2 ⟨rfl, hro⟩
              · intro hau; exact h3 ⟨rfl, hau⟩
              · intro hpl; exact h4 ⟨rfl, hpl⟩
    · intro ⟨hnh, hfh, hro, hau, hpl⟩
      rw [if_neg (by simp [hnh, hfh]), if_neg (by simp [hro]),
        if_neg (by simp [hau]), if_neg (by simp [hpl])]
  · intro h1
    rw [if_pos (by rcases h1 with h | h <;> simp [h])]
  · intro hnh hfh hro
    rw [if_neg (by simp [hnh, hfh]), if_pos (by simp [hro])]
  · intro hnh hfh hro hau
    rw [if_neg (by simp [hnh, hfh]), if_neg (by simp [hro]), if_pos (by simp [hau])]
  · intro hnh hfh hro hau hpl
    rw [if_neg (by simp [hnh, hfh]), if_neg (by simp [hro]),
      if_neg (by simp [hau]), if_pos (by simp [hpl])]

/-- Witness for C4: with the default configuration and header `["a"]` the
check passes; in headerless mode it fails with the no-header error. -/
theorem c4_witness :
    (Decoder.validateConfigOnInlineColumns defaultDecodeConfig true ["a"] = .ok ())
    ∧ (Decoder.validateConfigOnInlineColumns
        { defaultDecodeConfig with noHeaderMode := true } true ["a"]
      = .error ErrHeaderDynamicNotAllowNoHeaderMode) := by
  constructor
  · exact ((c4_dynamic_inline_config_restrictions defaultDecodeConfig ["a"]).1).mpr
      ⟨by decide, by simp, by decide, by decide, by decide⟩
  · exact (c4_dynamic_inline_config_restrictions
      { defaultDecodeConfig with noHeaderMode := true } ["a"]).2.1 (Or.inl (by decide))

/-! ## The decode row engine (`decoder.go`) -/

/-- `rowData`: one row as read by `readRowData` (`err` is set when the row
had a structural error demoted to a collected error). -/
structure RowData where
  records : List String := []
  line : Int := -1
  row : Int := 0
  err : Option GoErr := none

/-- `DecodeResult`. -/
structure DecodeResult where
  totalRow : Nat := 0
  unrecognizedColumns : List String := []
  missingOptionalColumns : List String := []
deriving DecidableEq, Repr

/-- `Decoder.handleCellError`: wrap a non-`CellError` into a `CellError`
(column −1 when no column metadata is available), set its raw value, then
let the per-column hook set the localization key. -/
def Decoder.handleCellError (err : GoErr) (value : String)
    (colMeta : Option DecodeColumnMeta) : GoErr :=
  let cellErr : GoErr :=
    match err with
    | .cellError inner column header _ lk => .cellError inner column header value lk
    | _ =>
      match colMeta with
      | some m => .cellError err m.column m.headerText value ""
      | none => .cellError err (-1) "" value ""
  match colMeta with
  | some m =>
    match m.onCellErrorFunc with
    | some hook =>
      match cellErr with
      | .cellError inner column header v _ =>
        .cellError inner column header v (hook cellErr)
      | e => e
    | none => cellErr
  | none => cellErr

/-- The validator loop of `Decoder.validateParsedCell`, over the remaining
validator functions. -/
def Decoder.validateParsedCellAux (cfg : DecodeConfig) (colMeta : DecodeColumnMeta)
    (v : Value) : List (Value → Option GoErr) → List GoErr
  | [] => []
  | f :: rest =>
    match f v with
    | none => Decoder.validateParsedCellAux cfg colMeta v rest
    | some err =>
      let err := if isCellError err then err
        else NewCellError err colMeta.column colMeta.headerText
      if cfg.stopOnError ∨ colMeta.stopOnError then [err]
      else err :: Decoder.validateParsedCellAux cfg colMeta v rest

/-- `Decoder.validateParsedCell`. -/
def Decoder.validateParsedCell (cfg : DecodeConfig) (v : Value)
    (colMeta : DecodeColumnMeta) : List GoErr :=
  Decoder.validateParsedCellAux cfg colMeta v colMeta.validatorFuncs

/-- The `for _, err := range errs` loop at the end of a column iteration of
`decodeRow`: wrap each error via `handleCellError` into the row's cell
errors; on stop-on-error set the stop flag and leave this loop (the outer
column loop still continues). Returns the appended errors and the updated
stop flag. -/
def Decoder.collectCellErrs (cfg : DecodeConfig) (colMeta : DecodeColumnMeta)
    (value : String) : List GoErr → Bool → List GoErr × Bool
  | [], stop => ([], stop)
  | err :: rest, stop =>
    let ce := Decoder.handleCellError err value (some colMeta)
    if cfg.stopOnError ∨ colMeta.stopOnError then ([ce], true)
    else
      let (more, stop2) := Decoder.collectCellErrs cfg colMeta value rest stop
      (ce :: more, stop2)

/-- State threaded through the column loop of `decodeRow`: the row target
value (one slot per struct field), the accumulated cell errors, and the
decoder's stop flag. -/
structure CellLoopState where
  rowVal : List Value := []
  cellErrs : List GoErr := []
  shouldStop : Bool := false

/-- The per-cell text pipeline of `decodeRow`: global/per-column trim, then
the preprocessors in order. -/
def processCellText (cfg : DecodeConfig) (colMeta : DecodeColumnMeta)
    (cellText : String) : String :=
  let cellText1 := if cfg.trimSpace ∨ colMeta.trimSpace then goTrim cellText
    else cellText
  colMeta.preprocessorFuncs.foldl (fun s f => f s) cellText1

/-- `colMeta.decodeFunc(cellText, outVal)`: after `buildColumnDecoders` the
function is always set; a nil function would make Go panic. -/
def DecodeColumnMeta.runDecode (colMeta : DecodeColumnMeta) (s : String) :
    Except GoErr Value :=
  (colMeta.decodeFunc.getD (fun _ => .error (.goPanic "nil decodeFunc"))) s

/-- One non-skipped column iteration of the `for col, cellText :=
range rowData.records` loop of `Decoder.decodeRow`: trim and preprocess the
text; skip decoding when empty and omit-empty; otherwise decode into the
target field (writing the decoded value at `colMeta.fieldIndex` of the row
value); run the validators when there was no decode error; collect failures
as cell errors via `handleCellError`. -/
def Decoder.decodeOneCell (cfg : DecodeConfig) (colMeta : DecodeColumnMeta)
    (cellText : String) (st : CellLoopState) : CellLoopState :=
  let cellText2 := processCellText cfg colMeta cellText
  let decodeRes : Option (Except GoErr Value) :=
    if ¬colMeta.omitempty ∨ cellText2 ≠ "" then
      some (colMeta.runDecode cellText2)
    else none
  let step : List Value × List GoErr × Bool :=
    match decodeRes with
    | some (.error err) => (st.rowVal, [err], true)
    | some (.ok v) => (st.rowVal.set colMeta.fieldIndex v, [], false)
    | none => (st.rowVal, [], false)
  let rowVal1 := step.1
  let errs0 := step.2.1
  let hasDecodeErr := step.2.2
  let errs :=
    if ¬hasDecodeErr ∧ colMeta.validatorFuncs.length > 0 then
      Decoder.validateParsedCell cfg
        (rowVal1.getD colMeta.fieldIndex (zeroValue colMeta.ty)) colMeta
    else errs0
  let collected := Decoder.collectCellErrs cfg colMeta cellText errs st.shouldStop
  { rowVal := rowVal1
    cellErrs := st.cellErrs ++ collected.1
    shouldStop := collected.2 }

/-- The `for col, cellText := range rowData.records` loop of
`Decoder.decodeRow`.  The source indexes `colsMeta[col]` with the record
index `col`; the loop is the walk of the records zipped with the column
metadata, and unrecognized columns are skipped.  The second branch models
the index panic Go would raise if the reader yielded more fields than the
header has columns (the `encoding/csv` reader never does). -/
def Decoder.decodeCells (cfg : DecodeConfig) :
    List String → List DecodeColumnMeta → CellLoopState → CellLoopState
  | [], _, st => st
  | _ :: _, [], st =>
    { st with cellErrs := st.cellErrs ++ [.goPanic "index out of range"] }
  | cellText :: rest, colMeta :: colsRest, st =>
    if colMeta.unrecognized then Decoder.decodeCells cfg rest colsRest st
    else Decoder.decodeCells cfg rest colsRest
      (Decoder.decodeOneCell cfg colMeta cellText st)

/-- `Decoder.decodeRow`: a structural row error becomes a single-member
`RowErrors`; otherwise run the column loop and wrap any collected cell
errors into a `RowErrors`.  (The inline-group cursor reset is a no-op over
the scalar universe, which has no inline columns.)  Returns the final loop
state and the row error, if any. -/
def Decoder.decodeRow (cfg : DecodeConfig) (colsMeta : List DecodeColumnMeta)
    (rd : RowData) (rowVal : List Value) (shouldStop : Bool) :
    CellLoopState × Option GoErr :=
  match rd.err with
  | some e =>
    ({ rowVal := rowVal, cellErrs := [], shouldStop := shouldStop },
      some (.rowErrors [Decoder.handleCellError e "" none] rd.row rd.line))
  | none =>
    let st := Decoder.decodeCells cfg rd.records colsMeta
      { rowVal := rowVal, cellErrs := [], shouldStop := shouldStop }
    if st.cellErrs.length > 0 then
      (st, some (.rowErrors st.cellErrs rd.row rd.line))
    else (st, none)

/-! ## Header reconciliation (`Decoder.parseColumnsMeta`) -/

/-- The unrecognized-column metadata built for a live header column not in
the schema. -/
def mkUnrecognizedColMeta (headerText : String) : DecodeColumnMeta :=
  { headerKey := headerText, headerText := headerText, unrecognized := true }

/-- Lookup in the Go map `mapColMetaFromStruct` keyed by `headerText`
(later inserts win, hence the reverse search). -/
def colMetaByHeaderText (colsMetaFromStruct : List DecodeColumnMeta)
    (h : String) : Option DecodeColumnMeta :=
  colsMetaFromStruct.reverse.find? (fun c => c.headerText = h)

/-- The matching loop of `parseColumnsMeta`: one final column per live
header column, either the schema column of that name or (when allowed) an
unrecognized placeholder; `column` is the position in the final list. -/
def Decoder.reconcileHeaderAux (cfg : DecodeConfig)
    (colsMetaFromStruct : List DecodeColumnMeta) :
    List String → List DecodeColumnMeta → Except GoErr (List DecodeColumnMeta)
  | [], acc => .ok acc
  | headerText :: rest, acc =>
    match colMetaByHeaderText colsMetaFromStruct headerText with
    | none =>
      if ¬cfg.allowUnrecognizedColumns then
        .error (.wrap ErrHeaderColumnUnrecognized headerText)
      else
        Decoder.reconcileHeaderAux cfg colsMetaFromStruct rest
          (acc ++ [{ mkUnrecognizedColMeta headerText with column := (acc.length : Int) }])
    | some colMeta =>
      Decoder.reconcileHeaderAux cfg colsMetaFromStruct rest
        (acc ++ [{ colMeta with column := (acc.length : Int) }])


/-- A column iteration never changes the length of the row value. -/
theorem decodeOneCell_rowVal_length (cfg : DecodeConfig) (cm : DecodeColumnMeta)
    (t : String) (st : CellLoopState) :
    (Decoder.decodeOneCell cfg cm t st).rowVal.length = st.rowVal.length := by
  unfold Decoder.decodeOneCell
  dsimp only
  split <;> simp

/-- A column iteration touches no row-value slot other than its own target
field index. -/
theorem decodeOneCell_rowVal_ne (cfg : DecodeConfig) (cm : DecodeColumnMeta)
    (t : String) (st : CellLoopState) (k : Nat) (hk : cm.fieldIndex ≠ k) :
    (Decoder.decodeOneCell cfg cm t st).rowVal[k]? = st.rowVal[k]? := by
  unfold Decoder.decodeOneCell
  dsimp only
  split <;> simp [List.getElem?_set_ne hk]

/-- When the cell is not skipped by omit-empty and its processed text
decodes successfully, the column iteration stores the decoded value at the
column's target field index. -/
theorem decodeOneCell_writes (cfg : DecodeConfig) (cm : DecodeColumnMeta)
    (t : String) (st : CellLoopState) (v : Value)
    (hcase : ¬cm.omitempty = true ∨ processCellText cfg cm t ≠ "")
    (hok : cm.runDecode (processCellText cfg cm t) = .ok v)
    (hlen : cm.fieldIndex < st.rowVal.length) :
    (Decoder.decodeOneCell cfg cm t st).rowVal[cm.fieldIndex]? = some v := by
  unfold Decoder.decodeOneCell
  dsimp only
  rw [if_pos hcase, hok]
  simp [List.getElem?_set_self hlen]

/-- The column loop never writes a row-value slot that is not the target
field index of one of its recognized columns. -/
theorem decodeCells_preserves (cfg : DecodeConfig) (records : List String)
    (cols : List DecodeColumnMeta) (st : CellLoopState) (k : Nat)
    (hk : ∀ cm ∈ cols, ¬cm.unrecognized → cm.fieldIndex ≠ k) :
    (Decoder.decodeCells cfg records cols st).rowVal[k]? = st.rowVal[k]? := by
  induction records generalizing cols st with
  | nil => rfl
  | cons r rest ih =>
    cases cols with
    | nil => rfl
    | cons cm colsRest =>
      unfold Decoder.decodeCells
      by_cases hur : cm.unrecognized
      · rw [if_pos hur]
        exact ih colsRest st (fun c hc => hk c (by simp [hc]))
      · rw [if_neg hur]
        rw [ih colsRest _ (fun c hc => hk c (by simp [hc]))]
        exact decodeOneCell_rowVal_ne cfg cm r st k
          (hk cm (by simp) (by simpa using hur))

/-- The column loop never changes the length of the row value. -/
theorem decodeCells_rowVal_length (cfg : DecodeConfig) (records : List String)
    (cols : List DecodeColumnMeta) (st : CellLoopState) :
    (Decoder.decodeCells cfg records cols st).rowVal.length = st.rowVal.length := by
  induction records generalizing cols st with
  | nil => rfl
  | cons r rest ih =>
    cases cols with
    | nil => rfl
    | cons cm colsRest =>
      unfold Decoder.decodeCells
      by_cases hur : cm.unrecognized
      · rw [if_pos hur]; exact ih colsRest st
      · rw [if_neg hur]
        rw [ih colsRest _]
        exact decodeOneCell_rowVal_length cfg cm r st

/-- A recognized column whose cell is not skipped by omit-empty and whose
processed text decodes successfully ends the column loop with its decoded
value stored at its target field index, provided no later recognized column
targets the same field. -/
theorem decodeCells_writes (cfg : DecodeConfig) (pre post : List String)
    (cpre cpost : List DecodeColumnMeta) (t : String) (cm : DecodeColumnMeta)
    (st : CellLoopState) (v : Value)
    (hlen : pre.length = cpre.length)
    (hur : ¬cm.unrecognized)
    (hcase : ¬cm.omitempty = true ∨ processCellText cfg cm t ≠ "")
    (hok : cm.runDecode (processCellText cfg cm t) = .ok v)
    (hpost : ∀ c ∈ cpost, ¬c.unrecognized → c.fieldIndex ≠ cm.fieldIndex)
    (hfi : cm.fieldIndex < st.rowVal.length) :
    (Decoder.decodeCells cfg (pre ++ t :: post) (cpre ++ cm :: cpost) st).rowVal[cm.fieldIndex]?
      = some v := by
  induction pre generalizing cpre st with
  | nil =>
    cases cpre with
    | cons _ _ => simp at hlen
    | nil =>
      rw [List.nil_append, List.nil_append]
      unfold Decoder.decodeCells
      rw [if_neg (by simpa using hur)]
      rw [decodeCells_preserves cfg post cpost _ cm.fieldIndex
        (fun c hc hnur => hpost c hc hnur)]
      exact decodeOneCell_writes cfg cm t st v hcase hok hfi
  | cons p pre' ih =>
    cases cpre with
    | nil => simp at hlen
    | cons cp cpre' =>
      rw [List.cons_append, List.cons_append]
      unfold Decoder.decodeCells
      by_cases hcpur : cp.unrecognized
      · rw [if_pos hcpur]
        exact ih cpre' st (by simpa using hlen) hfi
      · rw [if_neg hcpur]
        refine ih cpre' _ (by simpa using hlen) ?_
        rw [decodeOneCell_rowVal_length]
        exact hfi

/-- With unrecognized columns allowed, the matching loop always succeeds
and maps the live header pointwise: a recognized name yields the schema
column (re-indexed), an unmatched name yields an unrecognized
placeholder. -/
theorem reconcileHeaderAux_allow (cfg : DecodeConfig)
    (cmfs : List DecodeColumnMeta) (hallow : cfg.allowUnrecognizedColumns = true)
    (fileHeader : List String) (acc : List DecodeColumnMeta) :
    ∃ colsMeta, Decoder.reconcileHeaderAux cfg cmfs fileHeader acc = .ok colsMeta
      ∧ colsMeta.length = acc.length + fileHeader.length
      ∧ (∀ i, i < acc.length → colsMeta[i]? = acc[i]?)
      ∧ (∀ i h, fileHeader[i]? = some h →
          colsMeta[acc.length + i]? = some
            (match colMetaByHeaderText cmfs h with
             | some cm => { cm with column := ((acc.length + i : Nat) : Int) }
             | none =>
               { mkUnrecognizedColMeta h with column := ((acc.length + i : Nat) : Int) })) := by
  induction fileHeader generalizing acc with
  | nil =>
    refine ⟨acc, rfl, by simp, fun i _ => rfl, fun i h hi => by simp at hi⟩
  | cons hd rest ih =>
    unfold Decoder.reconcileHeaderAux
    cases hfind : colMetaByHeaderText cmfs hd with
    | none =>
      rw [if_neg (by simp [hallow])]
      obtain ⟨colsMeta, hok, hlen, hpre, hpt⟩ :=
        ih (acc ++ [{ mkUnrecognizedColMeta hd with column := (acc.length : Int) }])
      refine ⟨colsMeta, hok,
        by simp only [List.length_append, List.length_cons, List.length_nil] at hlen ⊢
           omega, ?_, ?_⟩
      · intro i hi
        rw [hpre i (by simp; omega)]
        exact (List.getElem?_append_left (by omega))
      · intro i h hi
        cases i with
        | zero =>
          have := hpre acc.length (by simp)
          simp only [List.getElem?_append_right (by omega : acc.length ≤ acc.length)] at this
          simp only [Nat.add_zero]
          rw [this]
          simp only [Nat.sub_self, List.getElem?_cons_zero]
          simp only [List.getElem?_cons_zero] at hi
          cases hi
          rw [hfind]
        | succ j =>
          have := hpt j h (by simpa using hi)
          rw [show acc.length + (j + 1) = (acc ++ [_]).length + j by simp; omega]
          exact this
    | some cmFound =>
      obtain ⟨colsMeta, hok, hlen, hpre, hpt⟩ :=
        ih (acc ++ [{ cmFound with column := (acc.length : Int) }])
      refine ⟨colsMeta, hok,
        by simp only [List.length_append, List.length_cons, List.length_nil] at hlen ⊢
           omega, ?_, ?_⟩
      · intro i hi
        rw [hpre i (by simp; omega)]
        exact (List.getElem?_append_left (by omega))
      · intro i h hi
        cases i with
        | zero =>
          have := hpre acc.length (by simp)
          simp only [List.getElem?_append_right (by omega : acc.length ≤ acc.length)] at this
          simp only [Nat.add_zero]
          rw [this]
          simp only [Nat.sub_self, List.getElem?_cons_zero]
          simp only [List.getElem?_cons_zero] at hi
          cases hi
          rw [hfind]
        | succ j =>
          have := hpt j h (by simpa using hi)
          rw [show acc.length + (j + 1) = (acc ++ [_]).length + j by simp; omega]
          exact this

/-- With unrecognized columns disallowed, a live header containing any name
absent from the schema makes the matching loop fail with
`ErrHeaderColumnUnrecognized`. -/
theorem reconcileHeaderAux_unrecognized (cfg : DecodeConfig)
    (cmfs : List DecodeColumnMeta) (hallow : cfg.allowUnrecognizedColumns = false)
    (fileHeader : List String) (acc : List DecodeColumnMeta)
    (hmiss : ∃ h ∈ fileHeader, ∀ c ∈ cmfs, c.headerText ≠ h) :
    ∃ h, Decoder.reconcileHeaderAux cfg cmfs fileHeader acc
      = .error (.wrap ErrHeaderColumnUnrecognized h) := by
  induction fileHeader generalizing acc with
  | nil => obtain ⟨h, hh, _⟩ := hmiss; exact absurd hh (by simp)
  | cons hd rest ih =>
    unfold Decoder.reconcileHeaderAux
    cases hfind : colMetaByHeaderText cmfs hd with
    | none =>
      rw [if_pos (by simp [hallow])]
      exact ⟨hd, rfl⟩
    | some cmFound =>
      obtain ⟨h, hh, hnone⟩ := hmiss
      rcases List.mem_cons.mp hh with rfl | hhrest
      · exfalso
        have : cmFound ∈ cmfs.reverse ∧ cmFound.headerText = h := by
          have := List.find?_some hfind
          refine ⟨List.mem_of_find?_eq_some hfind, by simpa using this⟩
        exact hnone cmFound (by simpa using this.1) this.2
      · exact ih _ ⟨h, hhrest, hnone⟩

/-- Index-based form of the write property: the recognized column at
position `i` whose cell decodes successfully ends the loop with its value
stored, provided no later recognized column targets the same field. -/
theorem decodeCells_writes_at (cfg : DecodeConfig) (records : List String)
    (cols : List DecodeColumnMeta) (st : CellLoopState) (i : Nat)
    (cm : DecodeColumnMeta) (t : String) (v : Value)
    (hcm : cols[i]? = some cm) (hur : ¬cm.unrecognized)
    (hs : records[i]? = some t)
    (hcase : ¬cm.omitempty = true ∨ processCellText cfg cm t ≠ "")
    (hok : cm.runDecode (processCellText cfg cm t) = .ok v)
    (hinj : ∀ j cj, i < j → cols[j]? = some cj → ¬cj.unrecognized →
      cj.fieldIndex ≠ cm.fieldIndex)
    (hfi : cm.fieldIndex < st.rowVal.length) :
    (Decoder.decodeCells cfg records cols st).rowVal[cm.fieldIndex]? = some v := by
  induction records generalizing cols i st with
  | nil => simp at hs
  | cons r rest ih =>
    cases cols with
    | nil => simp at hcm
    | cons c0 colsRest =>
      unfold Decoder.decodeCells
      cases i with
      | zero =>
        simp only [List.getElem?_cons_zero, Option.some.injEq] at hcm hs
        cases hcm
        cases hs
        rw [if_neg (by simpa using hur)]
        rw [decodeCells_preserves cfg rest colsRest _ cm.fieldIndex
          (fun cj hcj hnur => ?_)]
        · exact decodeOneCell_writes cfg cm t st v hcase hok hfi
        · obtain ⟨j, hje⟩ := List.mem_iff_getElem?.mp hcj
          exact hinj (j + 1) cj (by omega) (by simpa using hje) hnur
      | succ j =>
        simp only [List.getElem?_cons_succ] at hcm hs
        by_cases hc0ur : c0.unrecognized
        · rw [if_pos hc0ur]
          exact ih colsRest st j hcm hs
            (fun k ck hk hck => hinj (k + 1) ck (by omega) (by simpa using hck))
            hfi
        · rw [if_neg hc0ur]
          refine ih colsRest _ j hcm hs
            (fun k ck hk hck => hinj (k + 1) ck (by omega) (by simpa using hck)) ?_
          rw [decodeOneCell_rowVal_length]
          exact hfi

/-- C3: when `AllowUnrecognizedColumns` is off, a live header containing a
name absent from the schema makes the header reconciliation of
`parseColumnsMeta` fail with `ErrHeaderColumnUnrecognized`; when it is on,
reconciliation succeeds, every recognized column keeps its schema metadata
at its header position, and the row engine still stores that column's
decoded cell value at its target field — no recognized column is
dropped. -/
theorem c3_unrecognized_columns :
    (∀ (cfg : DecodeConfig) (cmfs : List DecodeColumnMeta) (fileHeader : List String),
      cfg.allowUnrecognizedColumns = false →
      (∃ h ∈ fileHeader, ∀ c ∈ cmfs, c.headerText ≠ h) →
      ∃ h, Decoder.reconcileHeaderAux cfg cmfs fileHeader []
        = .error (.wrap ErrHeaderColumnUnrecognized h))
    ∧ (∀ (cfg : DecodeConfig) (cmfs : List DecodeColumnMeta)
        (fileHeader records : List String) (rowVal : List Value)
        (i : Nat) (h t : String) (cm : DecodeColumnMeta) (v : Value),
        cfg.allowUnrecognizedColumns = true →
        fileHeader.Nodup →
        fileHeader[i]? = some h →
        colMetaByHeaderText cmfs h = some cm →
        cm.unrecognized = false →
        records[i]? = some t →
        (¬cm.omitempty = true ∨ processCellText cfg cm t ≠ "") →
        cm.runDecode (processCellText cfg cm t) = .ok v →
        (∀ c ∈ cmfs, c.headerText ≠ h → c.fieldIndex ≠ cm.fieldIndex) →
        cm.fieldIndex < rowVal.length →
        ∃ colsMeta, Decoder.reconcileHeaderAux cfg cmfs fileHeader [] = .ok colsMeta
          ∧ colsMeta[i]? = some { cm with column := (i : Int) }
          ∧ (Decoder.decodeCells cfg records colsMeta
              { rowVal := rowVal, cellErrs := [], shouldStop := false }).rowVal[cm.fieldIndex]?
            = some v) := by
  constructor
  · intro cfg cmfs fileHeader hallow hmiss
    exact reconcileHeaderAux_unrecognized cfg cmfs hallow fileHeader [] hmiss
  · intro cfg cmfs fileHeader records rowVal i h t cm v hallow hnodup hfh hcm hur hs
      hcase hok hinj hfi
    obtain ⟨colsMeta, hok2, hlen, _, hpt⟩ :=
      reconcileHeaderAux_allow cfg cmfs hallow fileHeader []
    simp only [List.length_nil, Nat.zero_add] at hlen hpt
    have hcmi : colsMeta[i]? = some { cm with column := (i : Int) } := by
      have := hpt i h hfh
      rw [hcm] at this
      exact this
    refine ⟨colsMeta, hok2, hcmi, ?_⟩
    have hwr := decodeCells_writes_at cfg records colsMeta
      { rowVal := rowVal, cellErrs := [], shouldStop := false } i
      { cm with column := (i : Int) } t v hcmi (by simpa using hur) hs hcase hok ?_ hfi
    · exact hwr
    · intro j cj hij hcj hnur
      have hjlen : j < colsMeta.length := by
        by_contra hge
        rw [List.getElem?_eq_none (by omega)] at hcj
        exact absurd hcj (by simp)
      rw [hlen] at hjlen
      have hh2 : fileHeader[j]? = some (fileHeader.get ⟨j, hjlen⟩) := List.getElem?_eq_getElem hjlen
      have hptj := hpt j (fileHeader.get ⟨j, hjlen⟩) hh2
      rw [hcj] at hptj
      have hne : fileHeader.get ⟨j, hjlen⟩ ≠ h := by
        intro heq
        have : fileHeader[j]? = fileHeader[i]? := by rw [hh2, heq, hfh]
        have := List.getElem?_inj hjlen hnodup this
        omega
      cases hl2 : colMetaByHeaderText cmfs (fileHeader.get ⟨j, hjlen⟩) with
      | none =>
        rw [hl2] at hptj
        simp only [Option.some.injEq] at hptj
        exfalso
        apply hnur
        rw [hptj]
        rfl
      | some cj0 =>
        rw [hl2] at hptj
        simp only [Option.some.injEq] at hptj
        have hmem : cj0 ∈ cmfs := by
          have := List.mem_of_find?_eq_some hl2
          simpa using this
        have hht : cj0.headerText = fileHeader.get ⟨j, hjlen⟩ := by
          have := List.find?_some hl2
          simpa using this
        have hne2 := hinj cj0 hmem (by rw [hht]; exact hne)
        have hfe : cj.fieldIndex = cj0.fieldIndex := by rw [hptj]
        rw [hfe]
        exact hne2

/-- A one-column sample schema used to witness the reconciliation and row
engine facts: string column `"a"` targeting field 0. -/
def sampleColA : DecodeColumnMeta :=
  { headerKey := "a", headerText := "a", fieldIndex := 0, ty := .str,
    decodeFunc := some decodeStr }

/-- The decode configuration with unrecognized columns allowed. -/
def allowUnrecognizedCfg : DecodeConfig :=
  { defaultDecodeConfig with allowUnrecognizedColumns := true }

/-- Witness for C3: header `["x"]` against an empty schema is rejected
when unrecognized columns are disallowed; with them allowed, schema column
`"a"` of header `["u", "a"]` still receives the decoded value of its
cell. -/
theorem c3_witness :
    (∃ h, Decoder.reconcileHeaderAux defaultDecodeConfig [] ["x"] []
      = .error (.wrap ErrHeaderColumnUnrecognized h))
    ∧ (∃ colsMeta,
        Decoder.reconcileHeaderAux allowUnrecognizedCfg [sampleColA]
          ["u", "a"] [] = .ok colsMeta
        ∧ colsMeta[1]? = some { sampleColA with column := (1 : Int) }
        ∧ (Decoder.decodeCells allowUnrecognizedCfg ["zz", "hello"] colsMeta
            { rowVal := [Value.vStr ""], cellErrs := [], shouldStop := false }).rowVal[0]?
          = some (Value.vStr "hello")) := by
  constructor
  · exact c3_unrecognized_columns.1 defaultDecodeConfig [] ["x"] rfl
      ⟨"x", by simp, by simp⟩
  · exact c3_unrecognized_columns.2 allowUnrecognizedCfg [sampleColA]
      ["u", "a"] ["zz", "hello"] [Value.vStr ""] 1 "a" "hello" sampleColA
      (Value.vStr "hello")
      rfl (by simp) rfl rfl rfl rfl (Or.inl (by decide)) rfl
      (by intro c hc hne
          simp only [List.mem_singleton] at hc
          subst hc
          exact absurd rfl hne)
      (by decide)

/-- The document `Errors` value viewed as a Go `error` (it is returned as
the `error` result of `Decode`). -/
def errorsAsGoErr (e : Errors) : GoErr := .errorsDoc e.errs e.totalRow e.header

/-! ## The decode session (`Decoder.Decode` and its preparation) -/

/-- Go types of the modelled universe, as far as `parseOutputVar` and
schema resolution inspect them: named struct types with their (scalar)
fields, pointers, slices, arrays, and anything else. -/
inductive GoType where
  | structT (name : String) (fields : List StructField)
  | ptr (elem : GoType)
  | slice (elem : GoType)
  | array (elem : GoType)
  | otherT (name : String)
deriving DecidableEq, Repr

/-- `indirectType` (`reflect.go`): strips one pointer level. -/
def indirectType : GoType → GoType
  | .ptr t => t
  | t => t

/-- `Kind() == reflect.Struct`. -/
def GoType.isStruct : GoType → Bool
  | .structT .. => true
  | _ => false

/-- The output variable passed to `Decode`: its type and nilness
(`reflect.ValueOf(v)`). -/
structure OutVar where
  type : GoType
  isNil : Bool := false
deriving DecidableEq, Repr

/-- `Decoder.parseOutputVar`: the var must be a non-nil pointer to a slice
or array of a struct (or pointer-to-struct) item type. -/
def Decoder.parseOutputVar (v : OutVar) : Except GoErr GoType :=
  match v.type, v.isNil with
  | .ptr typ, false =>
    match typ with
    | .slice itemType =>
      if (indirectType itemType).isStruct then .ok itemType
      else .error (.wrap ErrTypeInvalid "item kind not struct")
    | .array itemType =>
      if (indirectType itemType).isStruct then .ok itemType
      else .error (.wrap ErrTypeInvalid "item kind not struct")
    | _ => .error (.wrap ErrTypeInvalid "elem kind not slice or array")
  | _, _ => .error (.wrap ErrTypeInvalid "not a non-nil pointer")

/-- `Decoder.validateConfig`. -/
def Decoder.validateConfig (cfg : DecodeConfig) : Except GoErr Unit :=
  if cfg.parseLocalizedHeader ∧ ¬cfg.hasLocalizationFunc then
    .error (.wrap ErrConfigOptionInvalid "localization function required")
  else .ok ()

/-- One `Read()` outcome of the injected reader: a tokenized record, a
field-count mismatch (`csv.ErrFieldCount`), a malformed quote
(`csv.ErrQuote`/`ErrBareQuote`), or any other read error.  End of input
(`io.EOF`) is the end of the list. -/
inductive ReadResult where
  | record (fields : List String)
  | fieldCountErr
  | quoteErr
  | readErr (e : GoErr)

/-- The raw error value carried by a `fieldCountErr` read. -/
def ErrCSVFieldCount : GoErr := .sentinel "csv.ErrFieldCount"
/-- The raw error value carried by a `quoteErr` read. -/
def ErrCSVQuote : GoErr := .sentinel "csv.ErrQuote"

/-- The validation loop of `validateHeader` (`util.go`), with the
seen-set explicit. -/
def validateHeaderFrom (seen : List String) : List String → Except GoErr Unit
  | [] => .ok ()
  | h :: rest =>
    let hh := goTrim h
    if h ≠ hh ∨ hh.length = 0 then .error (.wrap ErrHeaderColumnInvalid h)
    else if hh ∈ seen then .error (.wrap ErrHeaderColumnDuplicated h)
    else validateHeaderFrom (hh :: seen) rest

/-- `validateHeader` (`util.go`). -/
def validateHeader (header : List String) : Except GoErr Unit :=
  validateHeaderFrom [] header

/-- `Decoder.readFileHeader`: in header mode read (and validate) the first
record; reading at end of input yields `io.EOF`.  Returns the header and
the rest of the input. -/
def Decoder.readFileHeader (cfg : DecodeConfig) (input : List ReadResult) :
    Except GoErr (List String × List ReadResult) :=
  if cfg.noHeaderMode then
    match validateHeader [] with
    | .error e => .error e
    | .ok _ => .ok ([], input)
  else
    match input with
    | [] => .error ErrEOF
    | .record fields :: rest =>
      match validateHeader fields with
      | .error e => .error e
      | .ok _ => .ok (fields, rest)
    | .fieldCountErr :: _ => .error ErrCSVFieldCount
    | .quoteErr :: _ => .error ErrCSVQuote
    | .readErr e :: _ => .error e

/-- The row loop of `Decoder.readRowData`: tokenized records become
`rowData`; structural errors are fatal when
`TreatIncorrectStructureAsError` or `StopOnError` is set, demoted to
collected row errors otherwise; other read errors are fatal.  `line` is −1
(`DetectRowLine` off — line lookup needs the concrete `encoding/csv`
reader). -/
def Decoder.readRowDataAux (cfg : DecodeConfig) :
    List ReadResult → Nat → List RowData → Except GoErr (List RowData)
  | [], _, acc => .ok acc
  | .record fields :: rest, row, acc =>
    Decoder.readRowDataAux cfg rest (row + 1)
      (acc ++ [{ records := fields, line := -1, row := (row : Int) }])
  | .fieldCountErr :: rest, row, acc =>
    let err : GoErr := .wrap ErrDecodeRowFieldCount (toString row)
    if cfg.treatIncorrectStructureAsError ∨ cfg.stopOnError then .error err
    else Decoder.readRowDataAux cfg rest (row + 1)
      (acc ++ [{ records := [], line := -1, row := (row : Int), err := some err }])
  | .quoteErr :: rest, row, acc =>
    let err : GoErr := .wrap ErrDecodeQuoteInvalid (toString row)
    if cfg.treatIncorrectStructureAsError ∨ cfg.stopOnError then .error err
    else Decoder.readRowDataAux cfg rest (row + 1)
      (acc ++ [{ records := [], line := -1, row := (row : Int), err := some err }])
  | .readErr e :: _, _, _ => .error e

/-- `Decoder.readRowData`: rows are numbered from 2 in header mode
(the header is row 1), from 1 otherwise. -/
def Decoder.readRowData (cfg : DecodeConfig) (input : List ReadResult) :
    Except GoErr (List RowData) :=
  Decoder.readRowDataAux cfg input (if cfg.noHeaderMode then 1 else 2) []

/-- The field loop of `parseColumnsMetaFromStructType` over the struct's
fields (paired with their indices).  A scalar-typed field tagged `inline`
fails exactly as in the source: `parseInlineColumn` probes the dynamic and
the fixed interpretation, and both reject a non-struct field type with
`ErrHeaderDynamicTypeInvalid`. -/
def Decoder.parseColumnsMetaFromFieldsAux (cfg : DecodeConfig) :
    List (Nat × StructField) → List DecodeColumnMeta →
    Except GoErr (List DecodeColumnMeta)
  | [], acc => .ok acc
  | (i, field) :: rest, acc =>
    match parseTag field with
    | .error e => .error e
    | .ok none => Decoder.parseColumnsMetaFromFieldsAux cfg rest acc
    | .ok (some tag) =>
      if tag.ignored then Decoder.parseColumnsMetaFromFieldsAux cfg rest acc
      else
        let colMeta : DecodeColumnMeta :=
          { column := (acc.length : Int), headerKey := tag.name, headerText := tag.name,
            prefixVal := tag.prefixVal, optional := tag.optional,
            omitempty := tag.omitEmpty, fieldIndex := i, ty := field.ty }
        if tag.inline then .error (.wrap ErrHeaderDynamicTypeInvalid field.name)
        else
          let colMeta := colMeta.copyConfig (cfg.columnConfig colMeta.headerKey)
          match colMeta.localizeHeader cfg with
          | .error e => .error e
          | .ok colMeta => Decoder.parseColumnsMetaFromFieldsAux cfg rest (acc ++ [colMeta])

/-- The final re-indexing pass of `parseColumnsMetaFromStructType`
(`colMeta.column = i`). -/
def reindexColumns (cols : List DecodeColumnMeta) : List DecodeColumnMeta :=
  cols.enum.map (fun ic => { ic.2 with column := (ic.1 : Int) })

/-- `Decoder.parseColumnsMetaFromStructType` over the scalar universe:
parse each field's tag into column metadata and check key uniqueness.
(The inline-columns branch cannot be reached: a scalar field tagged
`inline` already failed in the field loop, so `hasFixedInlineColumns` and
`hasDynamicInlineColumns` stay false and `validateConfigOnInlineColumns` /
`parseDynamicInlineColumns` are not called.) -/
def Decoder.parseColumnsMetaFromStructType (cfg : DecodeConfig)
    (itemType : GoType) : Except GoErr (List DecodeColumnMeta) :=
  match indirectType itemType with
  | .structT _ fields =>
    match Decoder.parseColumnsMetaFromFieldsAux cfg fields.enum [] with
    | .error e => .error e
    | .ok colsMeta =>
      match Decoder.validateHeaderUniqueness colsMeta with
      | .error e => .error e
      | .ok _ => .ok (reindexColumns colsMeta)
  | _ => .error (.goPanic "NumField on non-struct type")

/-- The missing-column check of `parseColumnsMeta`: every schema column
absent from the live header must be optional; returns the optional ones
that are missing. -/
def Decoder.checkMissingColumns (colsMeta : List DecodeColumnMeta) :
    List DecodeColumnMeta → List String → Except GoErr (List String)
  | [], acc => .ok acc
  | c :: rest, acc =>
    if colsMeta.any (fun x => x.headerText == c.headerText) then
      Decoder.checkMissingColumns colsMeta rest acc
    else if ¬c.optional then .error (.wrap ErrHeaderColumnRequired c.headerText)
    else Decoder.checkMissingColumns colsMeta rest (acc ++ [c.headerText])

/-- `Decoder.validateHeaderOrder`: the matched schema columns must appear
in exactly the live header's order. -/
def Decoder.validateHeaderOrder (colsMeta colsMetaFromStruct : List DecodeColumnMeta) :
    Except GoErr Unit :=
  let header : List String :=
    (colsMeta.filter (fun c => !c.unrecognized)).map (fun c => c.headerText)
  let headerFromStruct : List String :=
    (colsMetaFromStruct.filter (fun c =>
      !(c.optional && !(colsMeta.any (fun x => x.headerText == c.headerText))))).map
        (fun c => c.headerText)
  if header = headerFromStruct then .ok ()
  else .error (.wrap ErrHeaderColumnOrderInvalid "")

/-- `Decoder.validateColumnsMeta`: every configured column key must name a
schema column (by key or parent key), and the final columns must be
unique. -/
def Decoder.validateColumnsMeta (cfg : DecodeConfig)
    (colsMeta colsMetaFromStruct : List DecodeColumnMeta) : Except GoErr Unit :=
  match cfg.columnConfigMap.find? (fun kv =>
    !(colsMetaFromStruct.any (fun c => c.headerKey == kv.1 || c.parentKey == kv.1))) with
  | some kv => .error (.wrap ErrConfigOptionInvalid kv.1)
  | none => Decoder.validateHeaderUniqueness colsMeta

/-- `Decoder.parseColumnsMeta` (after the header has been read): resolve
the schema from the struct type, then — when a live header exists — match
it against the header, check required/optional columns, the column order,
and the column options.  Returns the final column metadata together with
the unrecognized and missing-optional column names for the
`DecodeResult`. -/
def Decoder.parseColumnsMeta (cfg : DecodeConfig) (itemType : GoType)
    (fileHeader : List String) :
    Except GoErr (List DecodeColumnMeta × List String × List String) :=
  match Decoder.parseColumnsMetaFromStructType cfg itemType with
  | .error e => .error e
  | .ok colsMetaFromStruct =>
    if fileHeader.length = 0 then .ok (colsMetaFromStruct, [], [])
    else
      match Decoder.reconcileHeaderAux cfg colsMetaFromStruct fileHeader [] with
      | .error e => .error e
      | .ok colsMeta =>
        let unrecognizedColumns :=
          (colsMeta.filter (fun c => c.unrecognized)).map (fun c => c.headerText)
        match Decoder.checkMissingColumns colsMeta colsMetaFromStruct [] with
        | .error e => .error e
        | .ok missingOptionalColumns =>
          match (if cfg.requireColumnOrder then
              Decoder.validateHeaderOrder colsMeta colsMetaFromStruct
            else .ok ()) with
          | .error e => .error e
          | .ok _ =>
            match Decoder.validateColumnsMeta cfg colsMeta colsMetaFromStruct with
            | .error e => .error e
            | .ok _ => .ok (colsMeta, unrecognizedColumns, missingOptionalColumns)

/-- `Decoder.buildColumnDecoders`: give every recognized column without a
custom decode function the dispatched one for its value type.  (Over the
scalar universe `getDecodeFunc` always succeeds; the `ErrTypeUnsupported`
branch is outside it.) -/
def Decoder.buildColumnDecoders (colsMeta : List DecodeColumnMeta) :
    Except GoErr (List DecodeColumnMeta) :=
  .ok (colsMeta.map (fun c =>
    if c.decodeFunc.isSome ∨ c.unrecognized then c
    else { c with decodeFunc := some (getDecodeFunc c.ty) }))

/-- The `Decoder` session state.  `input` models the injected reader's
remaining rows; `rowsData` is the buffered row data after
`prepareDecode`. -/
structure DecoderState where
  cfg : DecodeConfig
  input : List ReadResult
  err : Errors := {}
  result : Option DecodeResult := none
  finished : Bool := false
  shouldStop : Bool := false
  itemType : Option GoType := none
  colsMeta : List DecodeColumnMeta := []
  rowsData : List RowData := []

/-- `NewDecoder`. -/
def NewDecoder (cfg : DecodeConfig) (input : List ReadResult) : DecoderState :=
  { cfg := cfg, input := input, err := {} }

/-- `Decoder.prepareDecode`: parse the output var, validate the
configuration, read the header, resolve the columns, build the decoders,
read all row data, and fill in the result's and the error document's row
count and header.  Returns the updated state and the error, if any
(partial state updates before a failure persist, as in the source). -/
def Decoder.prepareDecode (d : DecoderState) (v : OutVar) :
    DecoderState × Option GoErr :=
  let d := { d with result := some {} }
  match Decoder.parseOutputVar v with
  | .error e => (d, some e)
  | .ok itemType =>
    let d := { d with itemType := some itemType }
    match Decoder.validateConfig d.cfg with
    | .error e => (d, some e)
    | .ok _ =>
      match Decoder.readFileHeader d.cfg d.input with
      | .error e => (d, some e)
      | .ok fh =>
        let d := { d with input := fh.2 }
        match Decoder.parseColumnsMeta d.cfg itemType fh.1 with
        | .error e => (d, some e)
        | .ok cm =>
          match Decoder.buildColumnDecoders cm.1 with
          | .error e => (d, some e)
          | .ok colsMeta =>
            let d := { d with colsMeta := colsMeta }
            match Decoder.readRowData d.cfg d.input with
            | .error e => (d, some e)
            | .ok rowsData =>
              let totalRow := rowsData.length + (if d.cfg.noHeaderMode then 0 else 1)
              let res : DecodeResult :=
                { totalRow := totalRow
                  unrecognizedColumns := cm.2.1
                  missingOptionalColumns := cm.2.2 }
              let errDoc : Errors :=
                { d.err with
                  totalRow := totalRow
                  header := d.err.header ++ colsMeta.map (fun c => c.headerText) }
              ({ d with
                  input := []
                  rowsData := rowsData
                  result := some res
                  err := errDoc },
                none)

/-- The inner `for _, rowData := range chunk` loop of `Decode`: decode each
row into a fresh zero row, add any row error to the document errors, and
stop after the current row when stop-on-error is active (globally or set
by a per-column stop). -/
def Decoder.decodeChunk (cfg : DecodeConfig) (colsMeta : List DecodeColumnMeta)
    (zeroRow : List Value) :
    List RowData → Errors → Bool → List (List Value) × Errors × Bool
  | [], errAcc, shouldStop => ([], errAcc, shouldStop)
  | rd :: rest, errAcc, shouldStop =>
    let out := Decoder.decodeRow cfg colsMeta rd zeroRow shouldStop
    match out.2 with
    | some e =>
      let errAcc2 := errAcc.Add [e]
      if cfg.stopOnError ∨ out.1.shouldStop then ([out.1.rowVal], errAcc2, true)
      else
        let next := Decoder.decodeChunk cfg colsMeta zeroRow rest errAcc2 out.1.shouldStop
        (out.1.rowVal :: next.1, next.2)
    | none =>
      let next := Decoder.decodeChunk cfg colsMeta zeroRow rest errAcc out.1.shouldStop
      (out.1.rowVal :: next.1, next.2)

/-- The `for !d.shouldStop && len(d.rowsData) > 0` loop of `Decode`,
written with explicit fuel so that it stays structurally recursive: every
iteration consumes at least one buffered row, so fuel `rows.length`
(supplied by `decodeChunks`) never runs out. -/
def Decoder.decodeChunksAux (cfg : DecodeConfig) (colsMeta : List DecodeColumnMeta)
    (zeroRow : List Value) :
    Nat → List RowData → Errors → Bool →
    List (List Value) × List RowData × Errors × Bool
  | 0, rows, errAcc, shouldStop => ([], rows, errAcc, shouldStop)
  | fuel + 1, rows, errAcc, shouldStop =>
    if shouldStop = true ∨ rows.length = 0 then ([], rows, errAcc, shouldStop)
    else
      let chunkSz := min 10000 rows.length
      let step := Decoder.decodeChunk cfg colsMeta zeroRow (rows.take chunkSz)
        errAcc shouldStop
      let next := Decoder.decodeChunksAux cfg colsMeta zeroRow fuel
        (rows.drop chunkSz) step.2.1 step.2.2
      (step.1 ++ next.1, next.2)

/-- The chunked row loop of `Decode`: process the buffered rows in chunks
of at most 10000 (a memory optimization; rows of a chunk left unprocessed
after a stop are dropped from the buffer exactly as in the source).
Returns the decoded rows, the remaining buffered rows, the accumulated
errors, and the stop flag. -/
def Decoder.decodeChunks (cfg : DecodeConfig) (colsMeta : List DecodeColumnMeta)
    (zeroRow : List Value) (rows : List RowData) (errAcc : Errors)
    (shouldStop : Bool) : List (List Value) × List RowData × Errors × Bool :=
  Decoder.decodeChunksAux cfg colsMeta zeroRow rows.length rows errAcc shouldStop

/-- The zero-valued row target for an item type: one zero value per struct
field (`reflect.MakeSlice` / `reflect.New` zero-initialize; both the plain
and the pointer item kind start from a zero struct). -/
def zeroRowOf : Option GoType → List Value
  | some t =>
    match indirectType t with
    | .structT _ fields => fields.map (fun f => zeroValue f.ty)
    | _ => []
  | none => []

/-- What `Decode` hands back to the caller: the Go result/error pair, plus
`assigned` — the value written into the caller's output slice variable
(`val.Elem().Set(outSlice)`), `none` when the variable is left
untouched. -/
structure DecodeRet where
  result : Option DecodeResult
  err : Option GoErr
  assigned : Option (List (List Value))

/-- The processing part of `Decode` after preparation/type-check: run the
chunked row loop over the buffered rows, then either report the collected
errors (leaving the output variable untouched) or assign the decoded slice
and mark the session finished. -/
def Decoder.runDecodeLoop (d : DecoderState) : DecoderState × DecodeRet :=
  let zeroRow := zeroRowOf d.itemType
  let totalRows := d.rowsData.length
  let loop := Decoder.decodeChunks d.cfg d.colsMeta zeroRow d.rowsData d.err d.shouldStop
  let outSlice := loop.1 ++ List.replicate (totalRows - loop.1.length) zeroRow
  let d2 := { d with rowsData := loop.2.1, err := loop.2.2.1, shouldStop := loop.2.2.2 }
  if d2.err.HasError then
    (d2, { result := d2.result, err := some (errorsAsGoErr d2.err), assigned := none })
  else
    let d3 := { d2 with finished := decide (d2.rowsData.length = 0) }
    (d3, { result := d3.result, err := none, assigned := some outSlice })

/-- `Decoder.Decode`: the session protocol (finished / already failed /
type-unmatched checks), first-call preparation, then the row loop. -/
def Decoder.Decode (d : DecoderState) (v : OutVar) : DecoderState × DecodeRet :=
  if d.finished then
    (d, { result := none, err := some ErrFinished, assigned := none })
  else if d.shouldStop then
    (d, { result := none, err := some ErrAlreadyFailed, assigned := none })
  else
    match d.itemType with
    | none =>
      let p := Decoder.prepareDecode d v
      match p.2 with
      | some e =>
        let d2 := { p.1 with err := p.1.err.Add [e], shouldStop := true }
        (d2, { result := none, err := some (errorsAsGoErr d2.err), assigned := none })
      | none => Decoder.runDecodeLoop p.1
    | some t =>
      match Decoder.parseOutputVar v with
      | .error e => (d, { result := none, err := some e, assigned := none })
      | .ok itemType =>
        if itemType ≠ t then
          (d, { result := none, err := some (.wrap ErrTypeUnmatched "item type")
                assigned := none })
        else Decoder.runDecodeLoop d

/-- The row loop assigns the output variable exactly when the error
document is empty. -/
theorem runDecodeLoop_assigns_iff (d : DecoderState) :
    ((Decoder.runDecodeLoop d).1.err.HasError = true →
      (Decoder.runDecodeLoop d).2.assigned = none)
    ∧ ((Decoder.runDecodeLoop d).2.assigned ≠ none →
        (Decoder.runDecodeLoop d).1.err.HasError = false
        ∧ (Decoder.runDecodeLoop d).2.err = none) := by
  unfold Decoder.runDecodeLoop
  dsimp only
  by_cases h : (Decoder.decodeChunks d.cfg d.colsMeta (zeroRowOf d.itemType)
      d.rowsData d.err d.shouldStop).2.2.1.HasError = true
  · rw [if_pos (by exact h)]
    exact ⟨fun _ => rfl, fun hne => absurd rfl hne⟩
  · rw [if_neg (by exact h)]
    exact ⟨fun hh => absurd hh h, fun _ => ⟨by simpa using h, rfl⟩⟩

/-- C9: whenever `Decode` ends with any error collected in the session's
`Errors` document, the caller's output slice variable is left untouched;
the decoded rows are assigned only when the session has no error at all
(and then the returned error is nil). -/
theorem c9_output_assigned_only_without_error (d : DecoderState) (v : OutVar) :
    ((Decoder.Decode d v).1.err.HasError = true →
      (Decoder.Decode d v).2.assigned = none)
    ∧ ((Decoder.Decode d v).2.assigned ≠ none →
        (Decoder.Decode d v).1.err.HasError = false
        ∧ (Decoder.Decode d v).2.err = none) := by
  unfold Decoder.Decode
  by_cases hfin : d.finished
  · rw [if_pos hfin]
    exact ⟨fun _ => rfl, fun hne => absurd rfl hne⟩
  · rw [if_neg hfin]
    by_cases hstop : d.shouldStop
    · rw [if_pos hstop]
      exact ⟨fun _ => rfl, fun hne => absurd rfl hne⟩
    · rw [if_neg hstop]
      cases hit : d.itemType with
      | none =>
        dsimp only
        cases hp : (Decoder.prepareDecode d v).2 with
        | some e => exact ⟨fun _ => rfl, fun hne => absurd rfl hne⟩
        | none => exact runDecodeLoop_assigns_iff (Decoder.prepareDecode d v).1
      | some t =>
        dsimp only
        cases hpv : Decoder.parseOutputVar v with
        | error e => exact ⟨fun _ => rfl, fun hne => absurd rfl hne⟩
        | ok itemType =>
          split
          · exact ⟨fun _ => rfl, fun hne2 => absurd rfl hne2⟩
          · split
            · exact ⟨fun _ => rfl, fun hne2 => absurd rfl hne2⟩
            · exact runDecodeLoop_assigns_iff d

/-- A one-string-column record type used by the session witnesses. -/
def sampleItemType : GoType :=
  .structT "Item" [{ name := "A", tag := some "a", ty := .str }]

/-- The output variable `*[]Item`. -/
def sampleOutVar : OutVar := { type := .ptr (.slice sampleItemType) }

/-- Witness for C9: a session failing at preparation (empty input: reading
the header hits `io.EOF`) collects the error and leaves the output
untouched; a session over header `a` and one row `7` assigns the output
and reports no error. -/
theorem c9_witness :
    (Decoder.Decode (NewDecoder defaultDecodeConfig []) sampleOutVar).2.assigned = none
    ∧ ((Decoder.Decode (NewDecoder defaultDecodeConfig
          [.record ["a"], .record ["7"]]) sampleOutVar).1.err.HasError = false
        ∧ (Decoder.Decode (NewDecoder defaultDecodeConfig
            [.record ["a"], .record ["7"]]) sampleOutVar).2.err = none) := by
  constructor
  · exact (c9_output_assigned_only_without_error
      (NewDecoder defaultDecodeConfig []) sampleOutVar).1 rfl
  · exact (c9_output_assigned_only_without_error
      (NewDecoder defaultDecodeConfig [.record ["a"], .record ["7"]]) sampleOutVar).2
      (by decide)

/-! ## The encoder (`encoder.go`) -/

/-- `EncodeColumnConfig`. -/
structure EncodeColumnConfig where
  skip : Bool := false
  encodeFunc : Option (Value → Bool → Except GoErr String) := none
  postprocessorFuncs : List (String → String) := []

/-- `EncodeConfig` (defaults follow `defaultEncodeConfig`; the
localization function is a total function plus a presence flag). -/
structure EncodeConfig where
  noHeaderMode : Bool := false
  localizeHeader : Bool := false
  hasLocalizationFunc : Bool := false
  localizationFunc : String → Except GoErr String := fun k => .ok k
  columnConfigMap : List (String × EncodeColumnConfig) := []

/-- `defaultEncodeConfig`. -/
def defaultEncodeConfig : EncodeConfig := {}

/-- Lookup in the Go map `columnConfigMap`. -/
def EncodeConfig.columnConfig (cfg : EncodeConfig) (key : String) :
    Option EncodeColumnConfig :=
  (cfg.columnConfigMap.find? (fun kv => kv.1 = key)).map Prod.snd

/-- `encodeColumnMeta`. -/
structure EncodeColumnMeta where
  column : Int := 0
  headerKey : String := ""
  headerText : String := ""
  parentKey : String := ""
  prefixVal : String := ""
  omitEmpty : Bool := false
  skipColumn : Bool := false
  fieldIndex : Nat := 0
  ty : ColTy := .str
  isDynamicInline : Bool := false
  encodeFunc : Option (Value → Bool → Except GoErr String) := none
  postprocessorFuncs : List (String → String) := []

/-- `encodeColumnMeta.copyConfig`. -/
def EncodeColumnMeta.copyConfig (m : EncodeColumnMeta)
    (columnCfg : Option EncodeColumnConfig) : EncodeColumnMeta :=
  match columnCfg with
  | none => m
  | some c =>
    { m with
      skipColumn := c.skip
      encodeFunc := c.encodeFunc
      postprocessorFuncs := c.postprocessorFuncs }

/-- `encodeColumnMeta.localizeHeader`. -/
def EncodeColumnMeta.localizeHeader (m : EncodeColumnMeta) (cfg : EncodeConfig) :
    Except GoErr EncodeColumnMeta :=
  if cfg.localizeHeader then
    match cfg.localizationFunc m.headerKey with
    | .error _ => .error (.wrap ErrLocalization m.headerKey)
    | .ok headerText => .ok { m with headerText := headerText }
  else .ok m

/-- The loop of `Encoder.validateHeaderUniqueness`. -/
def encValidateHeaderUniquenessFrom (seen : List String) :
    List EncodeColumnMeta → Except GoErr Unit
  | [] => .ok ()
  | colMeta :: rest =>
    let h := colMeta.headerKey
    let hh := goTrim h
    if h ≠ hh ∨ hh.length = 0 then .error (.wrap ErrHeaderColumnInvalid h)
    else if hh ∈ seen ∧ ¬colMeta.isDynamicInline then
      .error (.wrap ErrHeaderColumnDuplicated h)
    else encValidateHeaderUniquenessFrom (hh :: seen) rest

/-- `Encoder.validateHeaderUniqueness`. -/
def Encoder.validateHeaderUniqueness (colsMeta : List EncodeColumnMeta) :
    Except GoErr Unit :=
  encValidateHeaderUniquenessFrom [] colsMeta

/-- `Encoder.validateConfig`. -/
def Encoder.validateConfig (cfg : EncodeConfig) : Except GoErr Unit :=
  if cfg.localizeHeader ∧ ¬cfg.hasLocalizationFunc then
    .error (.wrap ErrConfigOptionInvalid "localization function required")
  else .ok ()

/-- The field loop of the encoder's `parseColumnsMetaFromStructType`.
A scalar-typed field tagged `inline` fails as in the source: the dynamic
probe (on the first row's field value) and the fixed probe both reject a
non-struct type with `ErrHeaderDynamicTypeInvalid`. -/
def Encoder.parseColumnsMetaFromFieldsAux (cfg : EncodeConfig) :
    List (Nat × StructField) → List EncodeColumnMeta →
    Except GoErr (List EncodeColumnMeta)
  | [], acc => .ok acc
  | (i, field) :: rest, acc =>
    match parseTag field with
    | .error e => .error e
    | .ok none => Encoder.parseColumnsMetaFromFieldsAux cfg rest acc
    | .ok (some tag) =>
      if tag.ignored then Encoder.parseColumnsMetaFromFieldsAux cfg rest acc
      else
        let colMeta : EncodeColumnMeta :=
          { column := (acc.length : Int), headerKey := tag.name, headerText := tag.name,
            prefixVal := tag.prefixVal, omitEmpty := tag.omitEmpty,
            fieldIndex := i, ty := field.ty }
        if tag.inline then .error (.wrap ErrHeaderDynamicTypeInvalid field.name)
        else
          let colMeta := colMeta.copyConfig (cfg.columnConfig colMeta.headerKey)
          match colMeta.localizeHeader cfg with
          | .error e => .error e
          | .ok colMeta => Encoder.parseColumnsMetaFromFieldsAux cfg rest (acc ++ [colMeta])

/-- Re-indexing pass (`colMeta.column = i`). -/
def encReindexColumns (cols : List EncodeColumnMeta) : List EncodeColumnMeta :=
  cols.enum.map (fun ic => { ic.2 with column := (ic.1 : Int) })

/-- `Encoder.validateColumnsMeta`: configured keys must name a column, and
the columns must be unique. -/
def Encoder.validateColumnsMeta (cfg : EncodeConfig)
    (colsMeta : List EncodeColumnMeta) : Except GoErr Unit :=
  match cfg.columnConfigMap.find? (fun kv =>
    !(colsMeta.any (fun c => c.headerKey == kv.1 || c.parentKey == kv.1))) with
  | some kv => .error (.wrap ErrConfigOptionInvalid kv.1)
  | none => Encoder.validateHeaderUniqueness colsMeta

/-- `Encoder.parseColumnsMeta` over the scalar universe (the first-row
value is only consulted for dynamic inline groups, which cannot occur
here). -/
def Encoder.parseColumnsMeta (cfg : EncodeConfig) (itemType : GoType) :
    Except GoErr (List EncodeColumnMeta) :=
  match indirectType itemType with
  | .structT _ fields =>
    match Encoder.parseColumnsMetaFromFieldsAux cfg fields.enum [] with
    | .error e => .error e
    | .ok colsMeta =>
      let colsMeta := encReindexColumns colsMeta
      match Encoder.validateColumnsMeta cfg colsMeta with
      | .error e => .error e
      | .ok _ => .ok colsMeta
  | _ => .error (.goPanic "NumField on non-struct type")

/-- `Encoder.buildColumnEncoders`. -/
def Encoder.buildColumnEncoders (colsMeta : List EncodeColumnMeta) :
    Except GoErr (List EncodeColumnMeta) :=
  .ok (colsMeta.map (fun c =>
    if c.encodeFunc.isSome then c
    else { c with encodeFunc := some (getEncodeFunc c.ty) }))

/-- `Encoder.encodeHeader`: build the header record from the non-skipped
columns, validate it, and write it unless in headerless mode.  Returns the
record written (if any).  The injected writer is modelled as always
succeeding. -/
def Encoder.encodeHeader (cfg : EncodeConfig) (colsMeta : List EncodeColumnMeta)
    (headerWritten : Bool) : Except GoErr (Option (List String)) :=
  if headerWritten then .error (.wrap ErrUnexpected "header already encoded")
  else
    let record := (colsMeta.filter (fun c => !c.skipColumn)).map (fun c => c.headerText)
    match validateHeader record with
    | .error e => .error e
    | .ok _ => if cfg.noHeaderMode then .ok none else .ok (some record)

/-- `colMeta.encodeFunc(colVal, colMeta.omitEmpty)`: always set after
`buildColumnEncoders`. -/
def EncodeColumnMeta.runEncode (m : EncodeColumnMeta) (v : Value) (omitEmpty : Bool) :
    Except GoErr String :=
  (m.encodeFunc.getD (fun _ _ => .error (.goPanic "nil encodeFunc"))) v omitEmpty

/-- The column loop of `Encoder.encodeRow`: skip skipped columns, fetch the
field value, encode it, postprocess, append.  (The invalid-value branch of
the source is the nil-pointer inline path, which does not occur over the
scalar universe; an out-of-range field index would be a reflection panic.) -/
def Encoder.encodeRowAux (rowVal : List Value) :
    List EncodeColumnMeta → List String → Except GoErr (List String)
  | [], acc => .ok acc
  | cm :: rest, acc =>
    if cm.skipColumn then Encoder.encodeRowAux rowVal rest acc
    else
      match rowVal[cm.fieldIndex]? with
      | none => .error (.goPanic "field index out of range")
      | some colVal =>
        match cm.runEncode colVal cm.omitEmpty with
        | .error e => .error e
        | .ok text =>
          let text := cm.postprocessorFuncs.foldl (fun s f => f s) text
          Encoder.encodeRowAux rowVal rest (acc ++ [text])

/-- `Encoder.encodeRow` (the written record). -/
def Encoder.encodeRow (colsMeta : List EncodeColumnMeta) (rowVal : List Value) :
    Except GoErr (List String) :=
  Encoder.encodeRowAux rowVal colsMeta []

/-- `Kind() == reflect.Pointer`. -/
def GoType.isPtr : GoType → Bool
  | .ptr _ => true
  | _ => false

/-- The `for row := 0; row < totalRow; row++` loop of `Encode`: nil
elements of a pointer item kind are skipped (`continue`); each other row is
encoded and written; the first failure stops the loop. -/
def Encoder.encodeRows (colsMeta : List EncodeColumnMeta) (itemKindIsPtr : Bool) :
    List (Option (List Value)) → List (List String) →
    List (List String) × Option GoErr
  | [], acc => (acc, none)
  | none :: rest, acc =>
    if itemKindIsPtr then Encoder.encodeRows colsMeta itemKindIsPtr rest acc
    else (acc, some (.goPanic "nil element of a non-pointer item kind"))
  | some rowVal :: rest, acc =>
    match Encoder.encodeRow colsMeta rowVal with
    | .error e => (acc, some e)
    | .ok record => Encoder.encodeRows colsMeta itemKindIsPtr rest (acc ++ [record])

/-- The input value passed to `Encode`: its type, nilness, and elements
(`none` models a nil element of a pointer item kind). -/
structure InVar where
  type : GoType
  isNil : Bool := false
  values : List (Option (List Value)) := []

/-- `Encoder.parseInputVar`: the var must be a non-nil slice or array of a
struct (or pointer-to-struct) item type. -/
def Encoder.parseInputVar (v : InVar) : Except GoErr GoType :=
  match v.type with
  | .slice itemType =>
    if v.isNil then .error (.wrap ErrValueNil "must be non-nil pointer")
    else if (indirectType itemType).isStruct then .ok itemType
    else .error (.wrap ErrTypeInvalid "item kind not struct")
  | .array itemType =>
    if v.isNil then .error (.wrap ErrValueNil "must be non-nil pointer")
    else if (indirectType itemType).isStruct then .ok itemType
    else .error (.wrap ErrTypeInvalid "item kind not struct")
  | _ => .error (.wrap ErrTypeInvalid "kind not slice or array")

/-- The `Encoder` session state (`written` models the injected writer's
output). -/
structure EncoderState where
  cfg : EncodeConfig
  err : Option GoErr := none
  finished : Bool := false
  itemType : Option GoType := none
  headerWritten : Bool := false
  colsMeta : List EncodeColumnMeta := []
  written : List (List String) := []

/-- `NewEncoder`. -/
def NewEncoder (cfg : EncodeConfig) : EncoderState := { cfg := cfg }

/-- `Encoder.prepareEncode`: parse the input var, validate the config,
resolve the columns, build the encoders, write the header. -/
def Encoder.prepareEncode (e : EncoderState) (v : InVar) :
    EncoderState × Option GoErr :=
  match e.itemType with
  | some _ => (e, some (.wrap ErrUnexpected "item type already parsed"))
  | none =>
    match Encoder.parseInputVar v with
    | .error er => (e, some er)
    | .ok itemType =>
      let e := { e with itemType := some itemType }
      match Encoder.validateConfig e.cfg with
      | .error er => (e, some er)
      | .ok _ =>
        match Encoder.parseColumnsMeta e.cfg itemType with
        | .error er => (e, some er)
        | .ok cm =>
          match Encoder.buildColumnEncoders cm with
          | .error er => (e, some er)
          | .ok colsMeta =>
            let e := { e with colsMeta := colsMeta }
            match Encoder.encodeHeader e.cfg e.colsMeta e.headerWritten with
            | .error er => (e, some er)
            | .ok none => ({ e with headerWritten := true }, none)
            | .ok (some record) =>
              ({ e with headerWritten := true, written := e.written ++ [record] }, none)

/-- The processing part of `Encode` after preparation/type-check. -/
def Encoder.runEncodeLoop (e : EncoderState) (v : InVar) :
    EncoderState × Option GoErr :=
  let itemKindIsPtr :=
    match e.itemType with
    | some t => t.isPtr
    | none => false
  let res := Encoder.encodeRows e.colsMeta itemKindIsPtr v.values e.written
  let e2 := { e with written := res.1, err := res.2 }
  (e2, e2.err)

/-- `Encoder.Encode`: the session protocol, first-call preparation, then
the row loop. -/
def Encoder.Encode (e : EncoderState) (v : InVar) : EncoderState × Option GoErr :=
  if e.finished then (e, some ErrFinished)
  else if e.err.isSome then (e, some ErrAlreadyFailed)
  else
    match e.itemType with
    | none =>
      let p := Encoder.prepareEncode e v
      match p.2 with
      | some er => ({ p.1 with err := some er }, some er)
      | none => Encoder.runEncodeLoop p.1 v
    | some t =>
      match Encoder.parseInputVar v with
      | .error er => (e, some er)
      | .ok itemType =>
        if itemType ≠ t then (e, some (.wrap ErrTypeUnmatched "item type"))
        else Encoder.runEncodeLoop e v

/-- C7: for both sessions — a call after the session finished returns
`ErrFinished`; a call after a prior unrecoverable failure returns
`ErrAlreadyFailed`; a call with a record type different from the prepared
one returns `ErrTypeUnmatched`; in every case the session state (and so
its error document) is returned unchanged — none of these errors is
collected into the error model. -/
theorem c7_session_protocol :
    (∀ (d : DecoderState) (v : OutVar), d.finished = true →
      Decoder.Decode d v = (d, { result := none, err := some ErrFinished, assigned := none }))
    ∧ (∀ (d : DecoderState) (v : OutVar), d.finished = false → d.shouldStop = true →
      Decoder.Decode d v
        = (d, { result := none, err := some ErrAlreadyFailed, assigned := none }))
    ∧ (∀ (d : DecoderState) (v : OutVar) (t it : GoType),
        d.finished = false → d.shouldStop = false → d.itemType = some t →
        Decoder.parseOutputVar v = .ok it → it ≠ t →
        Decoder.Decode d v
          = (d, { result := none, err := some (.wrap ErrTypeUnmatched "item type"),
                  assigned := none }))
    ∧ (∀ (e : EncoderState) (v : InVar), e.finished = true →
      Encoder.Encode e v = (e, some ErrFinished))
    ∧ (∀ (e : EncoderState) (v : InVar) (er : GoErr), e.finished = false →
        e.err = some er →
        Encoder.Encode e v = (e, some ErrAlreadyFailed))
    ∧ (∀ (e : EncoderState) (v : InVar) (t it : GoType),
        e.finished = false → e.err = none → e.itemType = some t →
        Encoder.parseInputVar v = .ok it → it ≠ t →
        Encoder.Encode e v = (e, some (.wrap ErrTypeUnmatched "item type"))) := by
  refine ⟨?_, ?_, ?_, ?_, ?_, ?_⟩
  · intro d v hfin
    unfold Decoder.Decode
    rw [if_pos hfin]
  · intro d v hfin hstop
    unfold Decoder.Decode
    rw [if_neg (by simp [hfin]), if_pos hstop]
  · intro d v t it hfin hstop hit hpv hne
    unfold Decoder.Decode
    rw [if_neg (by simp [hfin]), if_neg (by simp [hstop]), hit]
    dsimp only
    rw [hpv]
    dsimp only
    rw [if_pos hne]
  · intro e v hfin
    unfold Encoder.Encode
    rw [if_pos hfin]
  · intro e v er hfin herr
    unfold Encoder.Encode
    rw [if_neg (by simp [hfin]), if_pos (by simp [herr])]
  · intro e v t it hfin herr hit hpv hne
    unfold Encoder.Encode
    rw [if_neg (by simp [hfin]), if_neg (by simp [herr]), hit]
    dsimp only
    rw [hpv]
    dsimp only
    rw [if_pos hne]

/-- A prepared-looking decoder state bound to a different record type,
used by the protocol witness. -/
def otherTypedDecoder : DecoderState :=
  { cfg := defaultDecodeConfig, input := [], itemType := some (.structT "Other" []) }

/-- A prepared-looking encoder state bound to a different record type,
used by the protocol witness. -/
def otherTypedEncoder : EncoderState :=
  { cfg := defaultEncodeConfig, itemType := some (.structT "Other" []) }

/-- Witness for C7: concrete finished / failed / type-unmatched calls on
both sessions. -/
theorem c7_witness :
    (Decoder.Decode { cfg := defaultDecodeConfig, input := [], finished := true }
        sampleOutVar
      = ({ cfg := defaultDecodeConfig, input := [], finished := true },
          { result := none, err := some ErrFinished, assigned := none }))
    ∧ (Decoder.Decode { cfg := defaultDecodeConfig, input := [], shouldStop := true }
        sampleOutVar
      = ({ cfg := defaultDecodeConfig, input := [], shouldStop := true },
          { result := none, err := some ErrAlreadyFailed, assigned := none }))
    ∧ (Decoder.Decode otherTypedDecoder sampleOutVar
      = (otherTypedDecoder,
          { result := none, err := some (.wrap ErrTypeUnmatched "item type"),
            assigned := none }))
    ∧ (Encoder.Encode { cfg := defaultEncodeConfig, finished := true }
        { type := .slice sampleItemType }
      = ({ cfg := defaultEncodeConfig, finished := true }, some ErrFinished))
    ∧ (Encoder.Encode { cfg := defaultEncodeConfig, err := some ErrEOF }
        { type := .slice sampleItemType }
      = ({ cfg := defaultEncodeConfig, err := some ErrEOF }, some ErrAlreadyFailed))
    ∧ (Encoder.Encode otherTypedEncoder { type := .slice sampleItemType }
      = (otherTypedEncoder, some (.wrap ErrTypeUnmatched "item type"))) := by
  refine ⟨?_, ?_, ?_, ?_, ?_, ?_⟩
  · exact c7_session_protocol.1 _ sampleOutVar rfl
  · exact c7_session_protocol.2.1 _ sampleOutVar rfl rfl
  · exact c7_session_protocol.2.2.1 otherTypedDecoder sampleOutVar
      (.structT "Other" []) sampleItemType rfl rfl rfl rfl (by decide)
  · exact c7_session_protocol.2.2.2.1 _ _ rfl
  · exact c7_session_protocol.2.2.2.2.1 _ _ ErrEOF rfl rfl
  · exact c7_session_protocol.2.2.2.2.2 otherTypedEncoder _
      (.structT "Other" []) sampleItemType rfl rfl rfl rfl (by decide)

/-- Every error collected by the column loop is a `*CellError`
(`handleCellError` wraps anything else). -/
theorem handleCellError_isCellError (err : GoErr) (value : String)
    (colMeta : Option DecodeColumnMeta) :
    isCellError (Decoder.handleCellError err value colMeta) = true := by
  cases colMeta with
  | none => cases err <;> rfl
  | some m =>
    cases err <;> cases hm : m.onCellErrorFunc <;>
      simp [Decoder.handleCellError, hm, isCellError]

/-- The spec-side characterization of a bad cell: after trim and
preprocessing, the cell is actually decoded (not skipped by omit-empty)
and the decode function fails. -/
def cellFails (cfg : DecodeConfig) (cm : DecodeColumnMeta) (cellText : String) : Bool :=
  let t2 := processCellText cfg cm cellText
  if ¬cm.omitempty = true ∨ t2 ≠ "" then
    match cm.runDecode t2 with
    | .error _ => true
    | .ok _ => false
  else false

/-- The number of bad cells of one row: recognized columns (paired
positionally with the row's records) whose cell fails to decode. -/
def badCellCount (cfg : DecodeConfig) (records : List String)
    (cols : List DecodeColumnMeta) : Nat :=
  (records.zip cols).countP (fun rc => !rc.2.unrecognized && cellFails cfg rc.2 rc.1)

/-- One recognized-column iteration, with stop-on-error off everywhere and
no validators: it appends exactly one cell error when the cell fails to
decode and none otherwise, and leaves the stop flag alone. -/
theorem decodeOneCell_cellErrs (cfg : DecodeConfig) (cm : DecodeColumnMeta)
    (t : String) (st : CellLoopState)
    (hstop : cfg.stopOnError = false) (hcmstop : cm.stopOnError = false)
    (hval : cm.validatorFuncs = []) :
    ∃ es, (Decoder.decodeOneCell cfg cm t st).cellErrs = st.cellErrs ++ es
      ∧ es.length = (if cellFails cfg cm t then 1 else 0)
      ∧ es.countP isCellError = es.length
      ∧ (Decoder.decodeOneCell cfg cm t st).shouldStop = st.shouldStop := by
  unfold Decoder.decodeOneCell
  dsimp only
  by_cases hc : ¬cm.omitempty = true ∨ processCellText cfg cm t ≠ ""
  · rw [if_pos hc]
    have hcf : cellFails cfg cm t
        = (match cm.runDecode (processCellText cfg cm t) with
           | .error _ => true
           | .ok _ => false) := by
      unfold cellFails
      rw [if_pos hc]
    cases hd : cm.runDecode (processCellText cfg cm t) with
    | error err =>
      rw [hd] at hcf
      dsimp only
      rw [if_neg (by simp [hval])]
      unfold Decoder.collectCellErrs
      rw [if_neg (by simp [hstop, hcmstop])]
      unfold Decoder.collectCellErrs
      refine ⟨[Decoder.handleCellError err t (some cm)], rfl, by rw [hcf]; rfl, ?_, rfl⟩
      simp [handleCellError_isCellError]
    | ok v =>
      rw [hd] at hcf
      dsimp only
      rw [if_neg (by simp [hval])]
      unfold Decoder.collectCellErrs
      exact ⟨[], by simp, by rw [hcf]; rfl, rfl, rfl⟩
  · rw [if_neg hc]
    have hcf : cellFails cfg cm t = false := by
      unfold cellFails
      rw [if_neg hc]
    dsimp only
    rw [if_neg (by simp [hval])]
    unfold Decoder.collectCellErrs
    exact ⟨[], by simp, by rw [hcf]; rfl, rfl, rfl⟩

/-- The column loop, with stop-on-error off everywhere and no validators:
it appends exactly one cell error per bad cell (all of them `CellError`s)
and leaves the stop flag alone. -/
theorem decodeCells_cellErrs (cfg : DecodeConfig) (records : List String)
    (cols : List DecodeColumnMeta) (st : CellLoopState)
    (hstop : cfg.stopOnError = false)
    (hcols : ∀ cm ∈ cols, cm.stopOnError = false ∧ cm.validatorFuncs = [])
    (hlen : records.length ≤ cols.length) :
    ∃ es, (Decoder.decodeCells cfg records cols st).cellErrs = st.cellErrs ++ es
      ∧ es.length = badCellCount cfg records cols
      ∧ es.countP isCellError = es.length
      ∧ (Decoder.decodeCells cfg records cols st).shouldStop = st.shouldStop := by
  induction records generalizing cols st with
  | nil =>
    have hnil : Decoder.decodeCells cfg [] cols st = st := by cases cols <;> rfl
    exact ⟨[], by rw [hnil]; simp, by simp [badCellCount], rfl, by rw [hnil]⟩
  | cons r rest ih =>
    cases cols with
    | nil => simp at hlen
    | cons cm colsRest =>
      have hbcc : badCellCount cfg (r :: rest) (cm :: colsRest)
          = (if !cm.unrecognized && cellFails cfg cm r then 1 else 0)
            + badCellCount cfg rest colsRest := by
        unfold badCellCount
        rw [List.zip_cons_cons, List.countP_cons]
        dsimp only
        omega
      unfold Decoder.decodeCells
      by_cases hur : cm.unrecognized
      · rw [if_pos hur]
        obtain ⟨es, h1, h2, h3, h4⟩ := ih colsRest st
          (fun c hc => hcols c (by simp [hc])) (by simpa using hlen)
        refine ⟨es, h1, ?_, h3, h4⟩
        rw [h2, hbcc]
        simp [hur]
      · rw [if_neg hur]
        obtain ⟨es1, g1, g2, g3, g4⟩ := decodeOneCell_cellErrs cfg cm r st hstop
          (hcols cm (by simp)).1 (hcols cm (by simp)).2
        obtain ⟨es2, h1, h2, h3, h4⟩ := ih colsRest (Decoder.decodeOneCell cfg cm r st)
          (fun c hc => hcols c (by simp [hc])) (by simpa using hlen)
        refine ⟨es1 ++ es2, ?_, ?_, ?_, ?_⟩
        · rw [h1, g1, List.append_assoc]
        · rw [List.length_append, g2, h2, hbcc]
          simp [hur]
        · rw [List.countP_append, g3, h3, List.length_append]
        · rw [h4, g4]

/-- `decodeRow` on a structurally well-formed row, with stop-on-error off
everywhere and no validators: no row error when the row has no bad cell,
otherwise a `RowErrors` holding exactly one `CellError` per bad cell; the
stop flag is left alone. -/
theorem decodeRow_counts (cfg : DecodeConfig) (cols : List DecodeColumnMeta)
    (rd : RowData) (zeroRow : List Value) (shouldStop : Bool)
    (hstop : cfg.stopOnError = false)
    (hcols : ∀ cm ∈ cols, cm.stopOnError = false ∧ cm.validatorFuncs = [])
    (hrd : rd.err = none) (hlen : rd.records.length ≤ cols.length) :
    (Decoder.decodeRow cfg cols rd zeroRow shouldStop).1.shouldStop = shouldStop
    ∧ (badCellCount cfg rd.records cols = 0 →
        (Decoder.decodeRow cfg cols rd zeroRow shouldStop).2 = none)
    ∧ (badCellCount cfg rd.records cols ≠ 0 →
        ∃ es, (Decoder.decodeRow cfg cols rd zeroRow shouldStop).2
            = some (.rowErrors es rd.row rd.line)
          ∧ es.length = badCellCount cfg rd.records cols
          ∧ es.countP isCellError = es.length) := by
  obtain ⟨es, h1, h2, h3, h4⟩ := decodeCells_cellErrs cfg rd.records cols
    { rowVal := zeroRow, cellErrs := [], shouldStop := shouldStop } hstop hcols hlen
  unfold Decoder.decodeRow
  rw [hrd]
  dsimp only
  rw [h1]
  simp only [List.nil_append] at h1 ⊢
  refine ⟨?_, ?_, ?_⟩
  · split <;> exact h4
  · intro hz
    rw [if_neg (by omega)]
  · intro hnz
    rw [if_pos (by omega)]
    exact ⟨es, rfl, h2, h3⟩

/-- Adding a `RowErrors` member raises `TotalRowError` by one. -/
theorem Errors.Add_rowErrors_TotalRowError (e : Errors) (es : List GoErr)
    (r l : Int) :
    (e.Add [.rowErrors es r l]).TotalRowError = e.TotalRowError + 1 := by
  simp [Errors.Add, Errors.TotalRowError, List.countP_append, isRowErrors]

/-- Adding a `RowErrors` member raises `TotalCellError` by its own
`CellError` count. -/
theorem Errors.Add_rowErrors_TotalCellError (e : Errors) (es : List GoErr)
    (r l : Int) :
    (e.Add [.rowErrors es r l]).TotalCellError
      = e.TotalCellError + es.countP isCellError := by
  simp [Errors.Add, Errors.TotalCellError, RowErrors.TotalCellError]
/-- The per-chunk row loop with stop-on-error off everywhere, no
validators, and only structurally well-formed rows: it adds one
`RowErrors` per row holding a bad cell, one `CellError` per bad cell, and
never raises the stop flag. -/
theorem decodeChunk_counts (cfg : DecodeConfig) (cols : List DecodeColumnMeta)
    (zeroRow : List Value) (rows : List RowData) (errAcc : Errors)
    (hstop : cfg.stopOnError = false)
    (hcols : ∀ cm ∈ cols, cm.stopOnError = false ∧ cm.validatorFuncs = [])
    (hrows : ∀ rd ∈ rows, rd.err = none ∧ rd.records.length ≤ cols.length) :
    (Decoder.decodeChunk cfg cols zeroRow rows errAcc false).2.1.TotalRowError
      = errAcc.TotalRowError
        + rows.countP (fun rd => badCellCount cfg rd.records cols != 0)
    ∧ (Decoder.decodeChunk cfg cols zeroRow rows errAcc false).2.1.TotalCellError
      = errAcc.TotalCellError
        + (rows.map (fun rd => badCellCount cfg rd.records cols)).sum
    ∧ (Decoder.decodeChunk cfg cols zeroRow rows errAcc false).2.2 = false := by
  induction rows generalizing errAcc with
  | nil => exact ⟨by simp [Decoder.decodeChunk], by simp [Decoder.decodeChunk], rfl⟩
  | cons rd rest ih =>
    obtain ⟨hrd, hlen⟩ := hrows rd (by simp)
    obtain ⟨hss, hzero, hnzero⟩ :=
      decodeRow_counts cfg cols rd zeroRow false hstop hcols hrd hlen
    have hrest : ∀ r ∈ rest, r.err = none ∧ r.records.length ≤ cols.length :=
      fun r hr => hrows r (by simp [hr])
    unfold Decoder.decodeChunk
    dsimp only
    rw [List.countP_cons, List.map_cons, List.sum_cons]
    by_cases hbc : badCellCount cfg rd.records cols = 0
    · rw [hzero hbc]
      dsimp only
      rw [hss]
      obtain ⟨i1, i2, i3⟩ := ih errAcc hrest
      refine ⟨?_, ?_, i3⟩
      · rw [i1, hbc]
        simp
      · rw [i2, hbc]
        omega
    · obtain ⟨es, heq, helen, hecnt⟩ := hnzero hbc
      have hb : (badCellCount cfg rd.records cols != 0) = true := by
        simpa using hbc
      rw [heq]
      dsimp only
      rw [hstop, hss]
      rw [if_neg (by simp)]
      dsimp only
      obtain ⟨i1, i2, i3⟩ := ih (errAcc.Add [.rowErrors es rd.row rd.line]) hrest
      refine ⟨?_, ?_, i3⟩
      · rw [i1, Errors.Add_rowErrors_TotalRowError, hb, if_pos rfl]
        omega
      · rw [i2, Errors.Add_rowErrors_TotalCellError, hecnt, helen]
        omega

/-- The chunked row loop with enough fuel, stop-on-error off everywhere,
no validators, and only structurally well-formed rows: it consumes the
whole buffer, never raises the stop flag, and accumulates one `RowErrors`
per row holding a bad cell and one `CellError` per bad cell. -/
theorem decodeChunksAux_counts (cfg : DecodeConfig)
    (cols : List DecodeColumnMeta) (zeroRow : List Value) (fuel : Nat)
    (rows : List RowData) (errAcc : Errors)
    (hstop : cfg.stopOnError = false)
    (hcols : ∀ cm ∈ cols, cm.stopOnError = false ∧ cm.validatorFuncs = [])
    (hrows : ∀ rd ∈ rows, rd.err = none ∧ rd.records.length ≤ cols.length)
    (hfuel : rows.length ≤ fuel) :
    (Decoder.decodeChunksAux cfg cols zeroRow fuel rows errAcc
        false).2.2.1.TotalRowError
      = errAcc.TotalRowError
        + rows.countP (fun rd => badCellCount cfg rd.records cols != 0)
    ∧ (Decoder.decodeChunksAux cfg cols zeroRow fuel rows errAcc
        false).2.2.1.TotalCellError
      = errAcc.TotalCellError
        + (rows.map (fun rd => badCellCount cfg rd.records cols)).sum
    ∧ (Decoder.decodeChunksAux cfg cols zeroRow fuel rows errAcc
        false).2.2.2 = false
    ∧ (Decoder.decodeChunksAux cfg cols zeroRow fuel rows errAcc
        false).2.1 = [] := by
  induction fuel generalizing rows errAcc with
  | zero =>
    have hnil : rows = [] := List.length_eq_zero.mp (by omega)
    subst hnil
    exact ⟨by simp [Decoder.decodeChunksAux], by simp [Decoder.decodeChunksAux],
      rfl, rfl⟩
  | succ fuel ih =>
    unfold Decoder.decodeChunksAux
    by_cases hz : rows.length = 0
    · have hnil : rows = [] := List.length_eq_zero.mp hz
      subst hnil
      rw [if_pos (by simp)]
      exact ⟨by simp, by simp, rfl, rfl⟩
    · rw [if_neg (by simp [hz])]
      dsimp only
      have hchunk : 1 ≤ min 10000 rows.length := by
        have : 0 < rows.length := Nat.pos_of_ne_zero hz
        omega
      obtain ⟨c1, c2, c3⟩ := decodeChunk_counts cfg cols zeroRow
        (rows.take (min 10000 rows.length)) errAcc hstop hcols
        (fun rd hrd => hrows rd (List.mem_of_mem_take hrd))
      rw [c3]
      obtain ⟨i1, i2, i3, i4⟩ := ih (rows.drop (min 10000 rows.length))
        (Decoder.decodeChunk cfg cols zeroRow
          (rows.take (min 10000 rows.length)) errAcc false).2.1
        (fun rd hrd => hrows rd (List.mem_of_mem_drop hrd))
        (by rw [List.length_drop]; omega)
      refine ⟨?_, ?_, i3, i4⟩
      · rw [i1, c1]
        conv_rhs => rw [← List.take_append_drop (min 10000 rows.length) rows]
        rw [List.countP_append]
        omega
      · rw [i2, c2]
        conv_rhs => rw [← List.take_append_drop (min 10000 rows.length) rows]
        rw [List.map_append, List.sum_append]
        omega

/-- C6: with stop-on-error disabled (globally and per column) and no
validators, a `Decode` run over structurally well-formed buffered rows —
so the only failures are bad cells — produces an `Errors` document whose
`TotalRowError` is exactly the number of rows holding at least one bad
cell and whose `TotalCellError` is exactly the total number of bad
cells. -/
theorem c6_error_counting_stop_disabled (d : DecoderState) (v : OutVar)
    (t : GoType)
    (hfin : d.finished = false) (hss : d.shouldStop = false)
    (hit : d.itemType = some t) (hv : Decoder.parseOutputVar v = .ok t)
    (hstop : d.cfg.stopOnError = false)
    (hcols : d.colsMeta.all
      (fun cm => !cm.stopOnError && cm.validatorFuncs.isEmpty) = true)
    (hrows : d.rowsData.all
      (fun rd => rd.err.isNone
        && decide (rd.records.length ≤ d.colsMeta.length)) = true)
    (herrs : d.err.errs = []) :
    (Decoder.Decode d v).1.err.TotalRowError
      = d.rowsData.countP
          (fun rd => badCellCount d.cfg rd.records d.colsMeta != 0)
    ∧ (Decoder.Decode d v).1.err.TotalCellError
      = (d.rowsData.map
          (fun rd => badCellCount d.cfg rd.records d.colsMeta)).sum := by
  have hcols' : ∀ cm ∈ d.colsMeta,
      cm.stopOnError = false ∧ cm.validatorFuncs = [] := by
    intro cm hcm
    have h := List.all_eq_true.mp hcols cm hcm
    simp only [Bool.and_eq_true, Bool.not_eq_true', List.isEmpty_iff] at h
    exact h
  have hrows' : ∀ rd ∈ d.rowsData,
      rd.err = none ∧ rd.records.length ≤ d.colsMeta.length := by
    intro rd hrd
    have h := List.all_eq_true.mp hrows rd hrd
    simp only [Bool.and_eq_true, Option.isNone_iff_eq_none,
      decide_eq_true_eq] at h
    exact h
  obtain ⟨a1, a2, a3, a4⟩ := decodeChunksAux_counts d.cfg d.colsMeta
    (zeroRowOf d.itemType) d.rowsData.length d.rowsData d.err hstop hcols'
    hrows' le_rfl
  have hrle : d.err.TotalRowError = 0 := by
    simp [Errors.TotalRowError, herrs]
  have hcle : d.err.TotalCellError = 0 := by
    simp [Errors.TotalCellError, herrs]
  have hloop : Decoder.Decode d v = Decoder.runDecodeLoop d := by
    unfold Decoder.Decode
    rw [if_neg (by simp [hfin]), if_neg (by simp [hss]), hit]
    dsimp only
    rw [hv]
    dsimp only
    rw [if_neg (by simp)]
  rw [hrle, Nat.zero_add] at a1
  rw [hcle, Nat.zero_add] at a2
  rw [hloop]
  unfold Decoder.runDecodeLoop Decoder.decodeChunks
  dsimp only
  rw [hss]
  split
  · exact ⟨a1, a2⟩
  · exact ⟨a1, a2⟩

/-- A two-column record type (both int8) for the C6 witness. -/
def c6ItemType : GoType :=
  .structT "Row8"
    [{ name := "A", tag := some "a", ty := .intT 8 },
     { name := "B", tag := some "b", ty := .intT 8 }]

/-- The output variable `*[]Row8`. -/
def c6OutVar : OutVar := { type := .ptr (.slice c6ItemType) }

/-- Header `a,b`, then rows `x,y` (two bad cells), `5,6` (clean), and
`999,7` (one bad cell: 999 overflows int8). -/
def c6Input : List ReadResult :=
  [.record ["a", "b"], .record ["x", "y"], .record ["5", "6"],
   .record ["999", "7"]]

/-- The decode configuration with stop-on-error disabled. -/
def c6Config : DecodeConfig := { stopOnError := false }

/-- The prepared decoder session over `c6Input`. -/
def c6State : DecoderState :=
  (Decoder.prepareDecode (NewDecoder c6Config c6Input) c6OutVar).1

/-- Witness for C6: three bad cells in two of the three rows give
`TotalRowError = 2` and `TotalCellError = 3`. -/
theorem c6_witness :
    (Decoder.Decode c6State c6OutVar).1.err.TotalRowError = 2
    ∧ (Decoder.Decode c6State c6OutVar).1.err.TotalCellError = 3 := by
  obtain ⟨h1, h2⟩ := c6_error_counting_stop_disabled c6State c6OutVar
    c6ItemType (by rfl) (by rfl) (by rfl) (by rfl) (by rfl) (by decide)
    (by decide) (by rfl)
  refine ⟨?_, ?_⟩
  · rw [h1]; rfl
  · rw [h2]; rfl

/-- Whether one buffered element encodes without error (`none` elements
trivially do: they are skipped). -/
def rowEncodesOk (cols : List EncodeColumnMeta) : Option (List Value) → Bool
  | none => true
  | some rv =>
    match Encoder.encodeRow cols rv with
    | .ok _ => true
    | .error _ => false

/-- The encode row loop over a pointer item kind, when every non-nil
element encodes cleanly: it reports no error and appends exactly one
record per non-nil element. -/
theorem encodeRows_skips_nil (cols : List EncodeColumnMeta)
    (values : List (Option (List Value))) (acc : List (List String))
    (hok : values.all (rowEncodesOk cols) = true) :
    (Encoder.encodeRows cols true values acc).2 = none
    ∧ (Encoder.encodeRows cols true values acc).1.length
      = acc.length + values.countP Option.isSome := by
  induction values generalizing acc with
  | nil => exact ⟨rfl, by simp [Encoder.encodeRows]⟩
  | cons row rest ih =>
    rw [List.all_cons, Bool.and_eq_true] at hok
    cases row with
    | none =>
      unfold Encoder.encodeRows
      rw [if_pos rfl]
      obtain ⟨i1, i2⟩ := ih acc hok.2
      refine ⟨i1, ?_⟩
      rw [i2, List.countP_cons]
      simp [Option.isSome]
    | some rv =>
      unfold Encoder.encodeRows
      have h1 := hok.1
      simp only [rowEncodesOk] at h1
      cases he : Encoder.encodeRow cols rv with
      | error e => rw [he] at h1; simp at h1
      | ok record =>
        dsimp only
        obtain ⟨i1, i2⟩ := ih (acc ++ [record]) hok.2
        refine ⟨i1, ?_⟩
        rw [i2, List.countP_cons, List.length_append]
        simp [Option.isSome]
        omega

/-- C10: encoding a slice of pointer-to-struct values whose non-nil
elements all encode cleanly reports no error, and the number of records
written by the call equals the number of non-nil elements — every nil
element is silently skipped. -/
theorem c10_nil_elements_skipped (e : EncoderState) (v : InVar)
    (itemT : GoType)
    (hfin : e.finished = false) (herr : e.err = none)
    (hit : e.itemType = some (.ptr itemT))
    (hv : Encoder.parseInputVar v = .ok (.ptr itemT))
    (hok : v.values.all (rowEncodesOk e.colsMeta) = true) :
    (Encoder.Encode e v).2 = none
    ∧ (Encoder.Encode e v).1.written.length
      = e.written.length + v.values.countP Option.isSome := by
  obtain ⟨a1, a2⟩ := encodeRows_skips_nil e.colsMeta v.values e.written hok
  have hloop : Encoder.Encode e v = Encoder.runEncodeLoop e v := by
    unfold Encoder.Encode
    rw [if_neg (by simp [hfin]), if_neg (by simp [herr]), hit]
    dsimp only
    rw [hv]
    dsimp only
    rw [if_neg (by simp)]
  rw [hloop]
  unfold Encoder.runEncodeLoop
  dsimp only
  rw [hit]
  dsimp only [GoType.isPtr]
  exact ⟨a1, a2⟩

/-- The struct type behind the C10 pointer elements. -/
def c10StructT : GoType :=
  .structT "P" [{ name := "A", tag := some "a", ty := .str }]

/-- The input: a slice of `*P` with a nil element between two values. -/
def c10InVar : InVar :=
  { type := .slice (.ptr c10StructT)
    values := [some [.vStr "x"], none, some [.vStr "y"]] }

/-- The prepared encoder session (the header row is already written). -/
def c10State : EncoderState :=
  (Encoder.prepareEncode (NewEncoder defaultEncodeConfig) c10InVar).1

/-- Witness for C10: of the three elements one is nil; the call reports no
error and the writer holds the header plus exactly two records. -/
theorem c10_witness :
    (Encoder.Encode c10State c10InVar).2 = none
    ∧ (Encoder.Encode c10State c10InVar).1.written.length = 3 := by
  obtain ⟨h1, h2⟩ := c10_nil_elements_skipped c10State c10InVar c10StructT
    (by rfl) (by rfl) (by rfl) (by rfl) (by rfl)
  refine ⟨h1, ?_⟩
  rw [h2]
  rfl

/-! ## C1: the decode-then-encode round trip -/

/-- With trimming off (globally and for the column) and no preprocessors,
the cell text pipeline is the identity. -/
theorem processCellText_id (cfg : DecodeConfig) (cm : DecodeColumnMeta)
    (s : String) (hcfg : cfg.trimSpace = false) (hcm : cm.trimSpace = false)
    (hpre : cm.preprocessorFuncs = []) :
    processCellText cfg cm s = s := by
  unfold processCellText
  rw [hpre]
  dsimp only
  rw [if_neg (by simp [hcfg, hcm])]
  rfl

/-- A column iteration whose cell decodes cleanly (no omit-empty skip, a
successful decode, no validators) only stores the decoded value: no cell
error is collected and the stop flag is untouched. -/
theorem decodeOneCell_clean (cfg : DecodeConfig) (cm : DecodeColumnMeta)
    (t : String) (st : CellLoopState) (v : Value)
    (hcase : ¬cm.omitempty = true ∨ processCellText cfg cm t ≠ "")
    (hok : cm.runDecode (processCellText cfg cm t) = .ok v)
    (hval : cm.validatorFuncs = []) :
    Decoder.decodeOneCell cfg cm t st
      = { rowVal := st.rowVal.set cm.fieldIndex v
          cellErrs := st.cellErrs
          shouldStop := st.shouldStop } := by
  unfold Decoder.decodeOneCell
  dsimp only
  rw [if_pos hcase, hok]
  dsimp only
  rw [if_neg (by simp [hval])]
  simp [Decoder.collectCellErrs]

/-- The column loop over cells that all decode cleanly collects no cell
error and leaves the stop flag alone. -/
theorem decodeCells_clean (cfg : DecodeConfig) (records : List String)
    (cols : List DecodeColumnMeta) (st : CellLoopState)
    (hclean : ∀ p ∈ records.zip cols, ¬p.2.unrecognized = true →
      (¬p.2.omitempty = true ∨ processCellText cfg p.2 p.1 ≠ "")
      ∧ p.2.validatorFuncs = []
      ∧ ∃ v, p.2.runDecode (processCellText cfg p.2 p.1) = .ok v)
    (hlen : records.length ≤ cols.length) :
    (Decoder.decodeCells cfg records cols st).cellErrs = st.cellErrs
    ∧ (Decoder.decodeCells cfg records cols st).shouldStop = st.shouldStop := by
  induction records generalizing cols st with
  | nil => cases cols <;> exact ⟨rfl, rfl⟩
  | cons r rest ih =>
    cases cols with
    | nil => simp at hlen
    | cons cm colsRest =>
      unfold Decoder.decodeCells
      by_cases hur : cm.unrecognized
      · rw [if_pos hur]
        exact ih colsRest st
          (fun p hp h => hclean p (by rw [List.zip_cons_cons]; simp [hp]) h)
          (by simpa using hlen)
      · rw [if_neg hur]
        obtain ⟨hcase, hval, v, hok⟩ := hclean (r, cm)
          (by rw [List.zip_cons_cons]; simp) (by simpa using hur)
        rw [decodeOneCell_clean cfg cm r st v hcase hok hval]
        exact ih colsRest _
          (fun p hp h => hclean p (by rw [List.zip_cons_cons]; simp [hp]) h)
          (by simpa using hlen)

/-- The row value produced by the column loop for one buffered row,
starting from the zero row. -/
def decodedRowVal (cfg : DecodeConfig) (cols : List DecodeColumnMeta)
    (zeroRow : List Value) (rd : RowData) : List Value :=
  (Decoder.decodeCells cfg rd.records cols
    { rowVal := zeroRow, cellErrs := [], shouldStop := false }).rowVal

/-- `decodeRow` on a well-formed row whose cells all decode cleanly: the
decoded row value, no row error, stop flag left at false. -/
theorem decodeRow_clean (cfg : DecodeConfig) (cols : List DecodeColumnMeta)
    (rd : RowData) (zeroRow : List Value)
    (hrd : rd.err = none)
    (hclean : ∀ p ∈ rd.records.zip cols, ¬p.2.unrecognized = true →
      (¬p.2.omitempty = true ∨ processCellText cfg p.2 p.1 ≠ "")
      ∧ p.2.validatorFuncs = []
      ∧ ∃ v, p.2.runDecode (processCellText cfg p.2 p.1) = .ok v)
    (hlen : rd.records.length ≤ cols.length) :
    (Decoder.decodeRow cfg cols rd zeroRow false).2 = none
    ∧ (Decoder.decodeRow cfg cols rd zeroRow false).1.rowVal
        = decodedRowVal cfg cols zeroRow rd
    ∧ (Decoder.decodeRow cfg cols rd zeroRow false).1.shouldStop = false := by
  obtain ⟨h1, h2⟩ := decodeCells_clean cfg rd.records cols
    { rowVal := zeroRow, cellErrs := [], shouldStop := false } hclean hlen
  have h1' : (Decoder.decodeCells cfg rd.records cols
      { rowVal := zeroRow, cellErrs := [], shouldStop := false }).cellErrs
      = ([] : List GoErr) := h1
  have h2' : (Decoder.decodeCells cfg rd.records cols
      { rowVal := zeroRow, cellErrs := [], shouldStop := false }).shouldStop
      = false := h2
  unfold Decoder.decodeRow
  rw [hrd]
  dsimp only
  rw [h1']
  rw [if_neg (by simp)]
  exact ⟨rfl, rfl, h2'⟩

/-- The per-chunk row loop over well-formed rows whose cells all decode
cleanly: it decodes every row, adds no error, and never stops. -/
theorem decodeChunk_clean (cfg : DecodeConfig) (cols : List DecodeColumnMeta)
    (zeroRow : List Value) (rows : List RowData) (errAcc : Errors)
    (hrows : ∀ rd ∈ rows, rd.err = none ∧ rd.records.length ≤ cols.length)
    (hclean : ∀ rd ∈ rows, ∀ p ∈ rd.records.zip cols, ¬p.2.unrecognized = true →
      (¬p.2.omitempty = true ∨ processCellText cfg p.2 p.1 ≠ "")
      ∧ p.2.validatorFuncs = []
      ∧ ∃ v, p.2.runDecode (processCellText cfg p.2 p.1) = .ok v) :
    (Decoder.decodeChunk cfg cols zeroRow rows errAcc false).1
      = rows.map (decodedRowVal cfg cols zeroRow)
    ∧ (Decoder.decodeChunk cfg cols zeroRow rows errAcc false).2.1 = errAcc
    ∧ (Decoder.decodeChunk cfg cols zeroRow rows errAcc false).2.2 = false := by
  induction rows generalizing errAcc with
  | nil => exact ⟨rfl, rfl, rfl⟩
  | cons rd rest ih =>
    obtain ⟨hrd, hlen⟩ := hrows rd (by simp)
    obtain ⟨r1, r2, r3⟩ := decodeRow_clean cfg cols rd zeroRow hrd
      (hclean rd (by simp)) hlen
    unfold Decoder.decodeChunk
    dsimp only
    rw [r1]
    dsimp only
    rw [r3]
    obtain ⟨i1, i2, i3⟩ := ih errAcc (fun r hr => hrows r (by simp [hr]))
      (fun r hr => hclean r (by simp [hr]))
    rw [List.map_cons]
    exact ⟨by rw [i1, r2], i2, i3⟩

/-- The chunked row loop with enough fuel over well-formed rows whose cells
all decode cleanly: the whole buffer is decoded, no error is added, the
stop flag stays down and the buffer is emptied. -/
theorem decodeChunksAux_clean (cfg : DecodeConfig)
    (cols : List DecodeColumnMeta) (zeroRow : List Value) (fuel : Nat)
    (rows : List RowData) (errAcc : Errors)
    (hrows : ∀ rd ∈ rows, rd.err = none ∧ rd.records.length ≤ cols.length)
    (hclean : ∀ rd ∈ rows, ∀ p ∈ rd.records.zip cols, ¬p.2.unrecognized = true →
      (¬p.2.omitempty = true ∨ processCellText cfg p.2 p.1 ≠ "")
      ∧ p.2.validatorFuncs = []
      ∧ ∃ v, p.2.runDecode (processCellText cfg p.2 p.1) = .ok v)
    (hfuel : rows.length ≤ fuel) :
    (Decoder.decodeChunksAux cfg cols zeroRow fuel rows errAcc false).1
      = rows.map (decodedRowVal cfg cols zeroRow)
    ∧ (Decoder.decodeChunksAux cfg cols zeroRow fuel rows errAcc false).2.1 = []
    ∧ (Decoder.decodeChunksAux cfg cols zeroRow fuel rows errAcc false).2.2.1
        = errAcc
    ∧ (Decoder.decodeChunksAux cfg cols zeroRow fuel rows errAcc false).2.2.2
        = false := by
  induction fuel generalizing rows errAcc with
  | zero =>
    have hnil : rows = [] := List.length_eq_zero.mp (by omega)
    subst hnil
    exact ⟨rfl, rfl, rfl, rfl⟩
  | succ fuel ih =>
    unfold Decoder.decodeChunksAux
    by_cases hz : rows.length = 0
    · have hnil : rows = [] := List.length_eq_zero.mp hz
      subst hnil
      rw [if_pos (by simp)]
      exact ⟨rfl, rfl, rfl, rfl⟩
    · rw [if_neg (by simp [hz])]
      dsimp only
      have hchunk : 1 ≤ min 10000 rows.length := by
        have : 0 < rows.length := Nat.pos_of_ne_zero hz
        omega
      obtain ⟨c1, c2, c3⟩ := decodeChunk_clean cfg cols zeroRow
        (rows.take (min 10000 rows.length)) errAcc
        (fun rd hrd => hrows rd (List.mem_of_mem_take hrd))
        (fun rd hrd => hclean rd (List.mem_of_mem_take hrd))
      rw [c3]
      obtain ⟨i1, i2, i3, i4⟩ := ih (rows.drop (min 10000 rows.length))
        (Decoder.decodeChunk cfg cols zeroRow
          (rows.take (min 10000 rows.length)) errAcc false).2.1
        (fun rd hrd => hrows rd (List.mem_of_mem_drop hrd))
        (fun rd hrd => hclean rd (List.mem_of_mem_drop hrd))
        (by rw [List.length_drop]; omega)
      refine ⟨?_, i2, by rw [i3, c2], i4⟩
      rw [c1, i1, ← List.map_append, List.take_append_drop]

/-- The row loop of `Decode` on a clean session: no error is reported and
the decoded rows are assigned to the output variable. -/
theorem runDecodeLoop_clean (d : DecoderState)
    (hss : d.shouldStop = false) (herrs : d.err.errs = [])
    (hrows : ∀ rd ∈ d.rowsData,
      rd.err = none ∧ rd.records.length ≤ d.colsMeta.length)
    (hclean : ∀ rd ∈ d.rowsData, ∀ p ∈ rd.records.zip d.colsMeta,
      ¬p.2.unrecognized = true →
      (¬p.2.omitempty = true ∨ processCellText d.cfg p.2 p.1 ≠ "")
      ∧ p.2.validatorFuncs = []
      ∧ ∃ v, p.2.runDecode (processCellText d.cfg p.2 p.1) = .ok v) :
    (Decoder.runDecodeLoop d).2.err = none
    ∧ (Decoder.runDecodeLoop d).2.assigned
        = some (d.rowsData.map
            (decodedRowVal d.cfg d.colsMeta (zeroRowOf d.itemType))) := by
  obtain ⟨a1, a2, a3, a4⟩ := decodeChunksAux_clean d.cfg d.colsMeta
    (zeroRowOf d.itemType) d.rowsData.length d.rowsData d.err hrows hclean
    le_rfl
  unfold Decoder.runDecodeLoop Decoder.decodeChunks
  dsimp only
  rw [hss, a3]
  rw [if_neg (by simp [Errors.HasError, herrs])]
  refine ⟨rfl, ?_⟩
  dsimp only
  rw [a1]
  simp

/-- The column loop of `encodeRow` over columns that each read back a
stored field value and re-encode it to the original cell text. -/
theorem encodeRowAux_roundtrip (rowVal : List Value)
    (ecols : List EncodeColumnMeta) (records acc : List String)
    (hlen : records.length = ecols.length)
    (h : ∀ p ∈ ecols.zip records, p.1.skipColumn = false
      ∧ p.1.postprocessorFuncs = []
      ∧ ∃ v, rowVal[p.1.fieldIndex]? = some v
          ∧ p.1.runEncode v p.1.omitEmpty = .ok p.2) :
    Encoder.encodeRowAux rowVal ecols acc = .ok (acc ++ records) := by
  induction ecols generalizing records acc with
  | nil =>
    cases records with
    | nil => simp [Encoder.encodeRowAux]
    | cons r rs => simp at hlen
  | cons em rest ih =>
    cases records with
    | nil => simp at hlen
    | cons rec rrest =>
      obtain ⟨hskip, hpost, v, hv, henc⟩ := h (em, rec)
        (by rw [List.zip_cons_cons]; simp)
      have hskip' : em.skipColumn = false := hskip
      have hpost' : em.postprocessorFuncs = [] := hpost
      have hv' : rowVal[em.fieldIndex]? = some v := hv
      have henc' : em.runEncode v em.omitEmpty = .ok rec := henc
      unfold Encoder.encodeRowAux
      rw [if_neg (by simp [hskip']), hv']
      dsimp only
      rw [henc']
      dsimp only
      rw [hpost']
      dsimp only [List.foldl]
      rw [ih rrest (acc ++ [rec]) (by simpa using hlen)
        (fun p hp => h p (by rw [List.zip_cons_cons]; simp [hp]))]
      simp

/-- The encode row loop over decoded rows, each of which encodes to a
known record: those records are written in order, with no error. -/
theorem encodeRows_roundtrip (ecols : List EncodeColumnMeta) (b : Bool)
    (rows : List RowData) (f : RowData → List Value)
    (g : RowData → List String) (acc : List (List String))
    (h : ∀ rd ∈ rows, Encoder.encodeRow ecols (f rd) = .ok (g rd)) :
    Encoder.encodeRows ecols b (rows.map (fun rd => some (f rd))) acc
      = (acc ++ rows.map g, none) := by
  induction rows generalizing acc with
  | nil => simp [Encoder.encodeRows]
  | cons rd rest ih =>
    rw [List.map_cons]
    unfold Encoder.encodeRows
    rw [h rd (by simp)]
    dsimp only
    rw [ih (acc ++ [g rd]) (fun r hr => h r (by simp [hr]))]
    rw [List.map_cons]
    simp

/-- Positional compatibility of a decode column with its encode
counterpart in a pair of sessions prepared from the same record type: the
decode side is a plain recognized column (no omit-empty, no trimming, no
preprocessors, no validators) and the encode side writes the same target
field back unmodified (not skipped, no postprocessors) under the same
header text. -/
def colsAligned (dm : DecodeColumnMeta) (em : EncodeColumnMeta) : Bool :=
  !dm.unrecognized && !dm.omitempty && !dm.trimSpace
    && dm.preprocessorFuncs.isEmpty && dm.validatorFuncs.isEmpty
    && !em.skipColumn && em.postprocessorFuncs.isEmpty
    && (em.fieldIndex == dm.fieldIndex) && (em.headerText == dm.headerText)

/-- A cell is canonical for its column pair: the session's decode function
accepts it, and the session's encode function renders the decoded value
back to the identical text. -/
def cellRoundtrips (dm : DecodeColumnMeta) (em : EncodeColumnMeta)
    (s : String) : Bool :=
  match dm.runDecode s with
  | .error _ => false
  | .ok v =>
    match em.runEncode v em.omitEmpty with
    | .error _ => false
    | .ok t => t == s

/-- Unfolding of `cellRoundtrips`. -/
theorem cellRoundtrips_elim (dm : DecodeColumnMeta) (em : EncodeColumnMeta)
    (s : String) (h : cellRoundtrips dm em s = true) :
    ∃ v, dm.runDecode s = .ok v ∧ em.runEncode v em.omitEmpty = .ok s := by
  unfold cellRoundtrips at h
  cases hd : dm.runDecode s with
  | error e => rw [hd] at h; simp at h
  | ok v =>
    rw [hd] at h
    dsimp only at h
    cases he : em.runEncode v em.omitEmpty with
    | error e => rw [he] at h; simp at h
    | ok t =>
      rw [he] at h
      dsimp only at h
      have ht : t = s := by simpa using h
      exact ⟨v, rfl, by rw [he, ht]⟩

/-- What the encoder writes back for one original cell: decode the cell
with the decode column's function, then render the decoded value with the
encode column's function (`none` when either step fails). -/
def reRenderCell (dm : DecodeColumnMeta) (em : EncodeColumnMeta)
    (s : String) : Option String :=
  match dm.runDecode s with
  | .error _ => none
  | .ok v =>
    match em.runEncode v em.omitEmpty with
    | .error _ => none
    | .ok t => some t

/-- Unfolding of `reRenderCell` when both steps succeed. -/
theorem reRenderCell_elim (dm : DecodeColumnMeta) (em : EncodeColumnMeta)
    (s : String) (h : (reRenderCell dm em s).isSome = true) :
    ∃ v t, dm.runDecode s = .ok v ∧ em.runEncode v em.omitEmpty = .ok t
      ∧ reRenderCell dm em s = some t := by
  cases hd : dm.runDecode s with
  | error e =>
    unfold reRenderCell at h
    rw [hd] at h
    simp at h
  | ok v =>
    cases he : em.runEncode v em.omitEmpty with
    | error e =>
      unfold reRenderCell at h
      rw [hd] at h
      dsimp only at h
      rw [he] at h
      simp at h
    | ok t =>
      refine ⟨v, t, rfl, he, ?_⟩
      unfold reRenderCell
      rw [hd]
      dsimp only
      rw [he]

/-- A canonical cell re-renders to exactly its own text. -/
theorem cellRoundtrips_reRender (dm : DecodeColumnMeta)
    (em : EncodeColumnMeta) (s : String)
    (h : cellRoundtrips dm em s = true) : reRenderCell dm em s = some s := by
  obtain ⟨v, hd, he⟩ := cellRoundtrips_elim dm em s h
  unfold reRenderCell
  rw [hd]
  dsimp only
  rw [he]

/-- The row the encoder writes back for one original row: every cell
replaced by the encoder's rendering of its decoded value. -/
def reRenderedRow (dcols : List DecodeColumnMeta)
    (ecols : List EncodeColumnMeta) (records : List String) : List String :=
  (records.zip (dcols.zip ecols)).map
    (fun rc => (reRenderCell rc.2.1 rc.2.2 rc.1).getD "")

/-- C1 (amended): decoding and then encoding through a pair of sessions
whose columns are aligned reproduces the header (the encoder's header line
is the decoder's), and — on any input whose cells all decode and
re-encode — writes back, cell by cell, the encoder's rendering of each
decoded value: the decode call reports no error and assigns the decoded
rows; the encode call reports no error and writes exactly the re-rendered
rows; and every canonical cell — one whose text already equals that
rendering — is reproduced verbatim at its position, while a non-canonical
cell (the counterexample's zero-padded `007`) is replaced by the rendering
of its value. -/
theorem c1_decode_encode_roundtrip (d : DecoderState) (v : OutVar)
    (t : GoType) (e1 : EncoderState) (encIn : InVar) (ti : GoType)
    (hfin : d.finished = false) (hss : d.shouldStop = false)
    (hit : d.itemType = some t) (hv : Decoder.parseOutputVar v = .ok t)
    (hcfgtrim : d.cfg.trimSpace = false) (herrs : d.err.errs = [])
    (hlen : e1.colsMeta.length = d.colsMeta.length)
    (halign : (d.colsMeta.zip e1.colsMeta).all
      (fun p => colsAligned p.1 p.2) = true)
    (hnodup : (d.colsMeta.map (fun cm => cm.fieldIndex)).Nodup)
    (hbound : d.colsMeta.all
      (fun cm => decide (cm.fieldIndex < (zeroRowOf d.itemType).length)) = true)
    (hrows : d.rowsData.all
      (fun rd => rd.err.isNone
        && (rd.records.length == d.colsMeta.length)) = true)
    (hcells : d.rowsData.all
      (fun rd => (rd.records.zip (d.colsMeta.zip e1.colsMeta)).all
        (fun rc => (reRenderCell rc.2.1 rc.2.2 rc.1).isSome)) = true)
    (hefin : e1.finished = false) (heerr : e1.err = none)
    (heit : e1.itemType = some ti)
    (hev : Encoder.parseInputVar encIn = .ok ti)
    (hvals : encIn.values
      = ((Decoder.Decode d v).2.assigned.getD []).map some) :
    (Decoder.Decode d v).2.err = none
    ∧ (Decoder.Decode d v).2.assigned
        = some (d.rowsData.map
            (decodedRowVal d.cfg d.colsMeta (zeroRowOf d.itemType)))
    ∧ (Encoder.Encode e1 encIn).2 = none
    ∧ (Encoder.Encode e1 encIn).1.written
        = e1.written ++ d.rowsData.map
            (fun rd => reRenderedRow d.colsMeta e1.colsMeta rd.records)
    ∧ e1.colsMeta.map (fun em => em.headerText)
        = d.colsMeta.map (fun cm => cm.headerText)
    ∧ (∀ rd ∈ d.rowsData, ∀ (j : Nat) (s : String) (dm : DecodeColumnMeta)
        (em : EncodeColumnMeta), rd.records[j]? = some s →
        d.colsMeta[j]? = some dm → e1.colsMeta[j]? = some em →
        cellRoundtrips dm em s = true →
        (reRenderedRow d.colsMeta e1.colsMeta rd.records)[j]? = some s) := by
  have alignedFacts : ∀ (j : Nat) (dm : DecodeColumnMeta)
      (em : EncodeColumnMeta), d.colsMeta[j]? = some dm →
      e1.colsMeta[j]? = some em →
      dm.unrecognized = false ∧ dm.omitempty = false ∧ dm.trimSpace = false
      ∧ dm.preprocessorFuncs = [] ∧ dm.validatorFuncs = []
      ∧ em.skipColumn = false ∧ em.postprocessorFuncs = []
      ∧ em.fieldIndex = dm.fieldIndex ∧ em.headerText = dm.headerText := by
    intro j dm em hd he
    have h := List.all_eq_true.mp halign (dm, em)
      (List.getElem?_mem (List.getElem?_zip_eq_some.mpr ⟨hd, he⟩))
    unfold colsAligned at h
    simp only [Bool.and_eq_true, Bool.not_eq_true', List.isEmpty_iff,
      beq_iff_eq] at h
    obtain ⟨⟨⟨⟨⟨⟨⟨⟨h1, h2⟩, h3⟩, h4⟩, h5⟩, h6⟩, h7⟩, h8⟩, h9⟩ := h
    exact ⟨h1, h2, h3, h4, h5, h6, h7, h8, h9⟩
  have cellkey : ∀ rd ∈ d.rowsData, ∀ (j : Nat) (s : String)
      (dm : DecodeColumnMeta) (em : EncodeColumnMeta),
      rd.records[j]? = some s → d.colsMeta[j]? = some dm →
      e1.colsMeta[j]? = some em → (reRenderCell dm em s).isSome = true := by
    intro rd hrd j s dm em hs hd he
    exact List.all_eq_true.mp (List.all_eq_true.mp hcells rd hrd) (s, (dm, em))
      (List.getElem?_mem (List.getElem?_zip_eq_some.mpr
        ⟨hs, List.getElem?_zip_eq_some.mpr ⟨hd, he⟩⟩))
  have hrows' : ∀ rd ∈ d.rowsData,
      rd.err = none ∧ rd.records.length = d.colsMeta.length := by
    intro rd hrd
    have h := List.all_eq_true.mp hrows rd hrd
    simp only [Bool.and_eq_true, Option.isNone_iff_eq_none, beq_iff_eq] at h
    exact h
  have hbound' : ∀ cm ∈ d.colsMeta,
      cm.fieldIndex < (zeroRowOf d.itemType).length := by
    intro cm hcm
    exact of_decide_eq_true (List.all_eq_true.mp hbound cm hcm)
  have hinj : ∀ (i j : Nat) (dmi dmj : DecodeColumnMeta), i ≠ j →
      d.colsMeta[i]? = some dmi →
      d.colsMeta[j]? = some dmj → dmi.fieldIndex ≠ dmj.fieldIndex := by
    intro i j dmi dmj hne hi hj heq
    apply hne
    have hi' : (d.colsMeta.map (fun cm => cm.fieldIndex))[i]?
        = some dmi.fieldIndex := by
      rw [List.getElem?_map, hi]; rfl
    have hj' : (d.colsMeta.map (fun cm => cm.fieldIndex))[j]?
        = some dmj.fieldIndex := by
      rw [List.getElem?_map, hj]; rfl
    obtain ⟨hilt, _⟩ := List.getElem?_eq_some.mp hi
    exact List.getElem?_inj (by simpa using hilt) hnodup
      (by rw [hi', hj', heq])
  have hemAt : ∀ (j : Nat) (dm : DecodeColumnMeta), d.colsMeta[j]? = some dm →
      ∃ em, e1.colsMeta[j]? = some em := by
    intro j dm hdj
    obtain ⟨hjlt, _⟩ := List.getElem?_eq_some.mp hdj
    exact ⟨e1.colsMeta.get ⟨j, by omega⟩, List.getElem?_eq_getElem (by omega)⟩
  have hcleanD : ∀ rd ∈ d.rowsData, ∀ p ∈ rd.records.zip d.colsMeta,
      ¬p.2.unrecognized = true →
      (¬p.2.omitempty = true ∨ processCellText d.cfg p.2 p.1 ≠ "")
      ∧ p.2.validatorFuncs = []
      ∧ ∃ v, p.2.runDecode (processCellText d.cfg p.2 p.1) = .ok v := by
    intro rd hrd p hp _
    obtain ⟨j, hj⟩ := List.mem_iff_getElem?.mp hp
    obtain ⟨hsj, hdj⟩ := List.getElem?_zip_eq_some.mp hj
    obtain ⟨em, hej⟩ := hemAt j p.2 hdj
    obtain ⟨hu, ho, ht, hpre, hval, _, _, _, _⟩ :=
      alignedFacts j p.2 em hdj hej
    obtain ⟨w, t0, hok, _, _⟩ := reRenderCell_elim p.2 em p.1
      (cellkey rd hrd j p.1 p.2 em hsj hdj hej)
    refine ⟨Or.inl (by simp [ho]), hval, w, ?_⟩
    rw [processCellText_id d.cfg p.2 p.1 hcfgtrim ht hpre]
    exact hok
  have hrowsLe : ∀ rd ∈ d.rowsData,
      rd.err = none ∧ rd.records.length ≤ d.colsMeta.length :=
    fun rd hrd => ⟨(hrows' rd hrd).1, le_of_eq (hrows' rd hrd).2⟩
  obtain ⟨L1, L2⟩ := runDecodeLoop_clean d hss herrs hrowsLe hcleanD
  have hloop : Decoder.Decode d v = Decoder.runDecodeLoop d := by
    unfold Decoder.Decode
    rw [if_neg (by simp [hfin]), if_neg (by simp [hss]), hit]
    dsimp only
    rw [hv]
    dsimp only
    rw [if_neg (by simp)]
  have conc1 : (Decoder.Decode d v).2.err = none := by rw [hloop]; exact L1
  have conc2 : (Decoder.Decode d v).2.assigned
      = some (d.rowsData.map
          (decodedRowVal d.cfg d.colsMeta (zeroRowOf d.itemType))) := by
    rw [hloop]; exact L2
  have hrowfact : ∀ rd ∈ d.rowsData,
      Encoder.encodeRow e1.colsMeta
        (decodedRowVal d.cfg d.colsMeta (zeroRowOf d.itemType) rd)
        = .ok (reRenderedRow d.colsMeta e1.colsMeta rd.records) := by
    intro rd hrd
    unfold Encoder.encodeRow
    have h0 : ([] : List String)
        ++ reRenderedRow d.colsMeta e1.colsMeta rd.records
        = reRenderedRow d.colsMeta e1.colsMeta rd.records := by simp
    rw [← h0]
    apply encodeRowAux_roundtrip
    · unfold reRenderedRow
      rw [List.length_map, List.length_zip, List.length_zip,
        (hrows' rd hrd).2, hlen]
      omega
    · intro p hp
      obtain ⟨j, hj⟩ := List.mem_iff_getElem?.mp hp
      obtain ⟨hej, hrj⟩ := List.getElem?_zip_eq_some.mp hj
      unfold reRenderedRow at hrj
      rw [List.getElem?_map] at hrj
      cases hz : (rd.records.zip (d.colsMeta.zip e1.colsMeta))[j]? with
      | none => rw [hz] at hrj; simp at hrj
      | some rc =>
        rw [hz] at hrj
        obtain ⟨hsj, hinner⟩ := List.getElem?_zip_eq_some.mp hz
        obtain ⟨hdj, hej2⟩ := List.getElem?_zip_eq_some.mp hinner
        have hpe : rc.2.2 = p.1 := by
          rw [hej] at hej2
          exact (Option.some.inj hej2).symm
        obtain ⟨hu, ho, ht, hpre, hval, hsk, hpost, hfi, hht⟩ :=
          alignedFacts j rc.2.1 p.1 hdj hej
        obtain ⟨w, t0, hok, henc, hre⟩ := reRenderCell_elim rc.2.1 rc.2.2 rc.1
          (cellkey rd hrd j rc.1 rc.2.1 rc.2.2 hsj hdj hej2)
        have hp2 : p.2 = t0 := by
          simp only [Option.map_some'] at hrj
          rw [hre] at hrj
          simpa using hrj.symm
        refine ⟨hsk, hpost, w, ?_, ?_⟩
        · rw [hfi]
          unfold decodedRowVal
          apply decodeCells_writes_at d.cfg rd.records d.colsMeta _ j rc.2.1
            rc.1 w hdj (by simp [hu]) hsj (Or.inl (by simp [ho]))
          · rw [processCellText_id d.cfg rc.2.1 rc.1 hcfgtrim ht hpre]
            exact hok
          · intro k ck hjk hk hnur
            exact hinj k j ck rc.2.1 (by omega) hk hdj
          · exact hbound' rc.2.1 (List.getElem?_mem hdj)
        · rw [← hpe, hp2]
          exact henc
  have hloopE : Encoder.Encode e1 encIn = Encoder.runEncodeLoop e1 encIn := by
    unfold Encoder.Encode
    rw [if_neg (by simp [hefin]), if_neg (by simp [heerr]), heit]
    dsimp only
    rw [hev]
    dsimp only
    rw [if_neg (by simp)]
  have hvals' : encIn.values
      = d.rowsData.map (fun rd => some
          (decodedRowVal d.cfg d.colsMeta (zeroRowOf d.itemType) rd)) := by
    rw [hvals, conc2]
    simp [List.map_map, Function.comp]
  have hhdr : e1.colsMeta.map (fun em => em.headerText)
      = d.colsMeta.map (fun cm => cm.headerText) := by
    apply List.ext_getElem?
    intro n
    rw [List.getElem?_map, List.getElem?_map]
    cases hd : d.colsMeta[n]? with
    | none =>
      have hn : d.colsMeta.length ≤ n := by
        by_contra hlt
        rw [List.getElem?_eq_getElem (by omega)] at hd
        simp at hd
      rw [List.getElem?_eq_none (by omega : e1.colsMeta.length ≤ n)]
      rfl
    | some dm =>
      obtain ⟨hn, _⟩ := List.getElem?_eq_some.mp hd
      have hn2 : n < e1.colsMeta.length := by omega
      have he : e1.colsMeta[n]? = some e1.colsMeta[n] :=
        List.getElem?_eq_getElem hn2
      rw [he]
      obtain ⟨_, _, _, _, _, _, _, _, hht⟩ :=
        alignedFacts n dm e1.colsMeta[n] hd he
      simp [hht]
  have hpercell : ∀ rd ∈ d.rowsData, ∀ (j : Nat) (s : String)
      (dm : DecodeColumnMeta) (em : EncodeColumnMeta),
      rd.records[j]? = some s → d.colsMeta[j]? = some dm →
      e1.colsMeta[j]? = some em → cellRoundtrips dm em s = true →
      (reRenderedRow d.colsMeta e1.colsMeta rd.records)[j]? = some s := by
    intro rd hrd j s dm em hs hd he hc
    have hz : (rd.records.zip (d.colsMeta.zip e1.colsMeta))[j]?
        = some (s, (dm, em)) :=
      List.getElem?_zip_eq_some.mpr ⟨hs, List.getElem?_zip_eq_some.mpr ⟨hd, he⟩⟩
    unfold reRenderedRow
    rw [List.getElem?_map, hz]
    simp only [Option.map_some']
    rw [cellRoundtrips_reRender dm em s hc]
    rfl
  refine ⟨conc1, conc2, ?_, ?_, hhdr, hpercell⟩
  · rw [hloopE]
    unfold Encoder.runEncodeLoop
    dsimp only
    rw [hvals']
    rw [encodeRows_roundtrip e1.colsMeta _ d.rowsData
      (decodedRowVal d.cfg d.colsMeta (zeroRowOf d.itemType))
      (fun rd => reRenderedRow d.colsMeta e1.colsMeta rd.records)
      e1.written hrowfact]
  · rw [hloopE]
    unfold Encoder.runEncodeLoop
    dsimp only
    rw [hvals']
    rw [encodeRows_roundtrip e1.colsMeta _ d.rowsData
      (decodedRowVal d.cfg d.colsMeta (zeroRowOf d.itemType))
      (fun rd => reRenderedRow d.colsMeta e1.colsMeta rd.records)
      e1.written hrowfact]

/-- The one-int8-column record type of the C1 sessions. -/
def c1ItemType : GoType :=
  .structT "R" [{ name := "A", tag := some "a", ty := .intT 8 }]

/-- The output variable `*[]R`. -/
def c1OutVar : OutVar := { type := .ptr (.slice c1ItemType) }

/-- Counterexample input: header `a`, one row with the non-canonical
numeral `007`. -/
def c1cInput : List ReadResult := [.record ["a"], .record ["007"]]

/-- The prepared decoder over the counterexample input. -/
def c1cDState : DecoderState :=
  (Decoder.prepareDecode (NewDecoder defaultDecodeConfig c1cInput) c1OutVar).1

/-- The decoded rows fed back to the encoder, as `Encode` receives them. -/
def c1cEncIn : InVar :=
  { type := .slice c1ItemType
    values := ((Decoder.Decode c1cDState c1OutVar).2.assigned.getD []).map some }

/-- The prepared encoder for the counterexample session. -/
def c1cEState : EncoderState :=
  (Encoder.prepareEncode (NewEncoder defaultEncodeConfig) c1cEncIn).1

/-- C1 as stated fails: decoding `007` (int8) succeeds with value 7 and no
error, re-encoding reports no error, but the written data row is `7`, not
the original `007` — the cell value is not reproduced even though no
column is ignored. -/
theorem c1_roundtrip_counterexample :
    (Decoder.Decode c1cDState c1OutVar).2.err = none
    ∧ (Encoder.Encode c1cEState c1cEncIn).2 = none
    ∧ (Encoder.Encode c1cEState c1cEncIn).1.written = [["a"], ["7"]]
    ∧ [["a"], ["7"]] ≠ [["a"], ["007"]] := by
  refine ⟨by rfl, by rfl, by rfl, by decide⟩

/-- Witness input: header `a`, the canonical numeral `7` and the
non-canonical `007`. -/
def c1Input : List ReadResult :=
  [.record ["a"], .record ["7"], .record ["007"]]

/-- The prepared decoder over the witness input. -/
def c1DState : DecoderState :=
  (Decoder.prepareDecode (NewDecoder defaultDecodeConfig c1Input) c1OutVar).1

/-- The decoded rows fed back to the encoder. -/
def c1EncIn : InVar :=
  { type := .slice c1ItemType
    values := ((Decoder.Decode c1DState c1OutVar).2.assigned.getD []).map some }

/-- The prepared encoder for the witness session. -/
def c1EState : EncoderState :=
  (Encoder.prepareEncode (NewEncoder defaultEncodeConfig) c1EncIn).1

/-- Witness for the amended C1, on a mixed input: the header and the
canonical cell `7` are reproduced verbatim, while the non-canonical `007`
of the second data row is re-rendered as `7`, all without error. -/
theorem c1_witness :
    (Decoder.Decode c1DState c1OutVar).2.err = none
    ∧ (Encoder.Encode c1EState c1EncIn).2 = none
    ∧ (Encoder.Encode c1EState c1EncIn).1.written = [["a"], ["7"], ["7"]] := by
  obtain ⟨h1, h2, h3, h4, h5, h6⟩ := c1_decode_encode_roundtrip c1DState
    c1OutVar c1ItemType c1EState c1EncIn c1ItemType (by rfl) (by rfl) (by rfl)
    (by rfl) (by rfl) (by rfl) (by rfl) (by rfl) (by decide) (by rfl) (by rfl)
    (by rfl) (by rfl) (by rfl) (by rfl) (by rfl) (by rfl)
  refine ⟨h1, h3, ?_⟩
  rw [h4]
  rfl
